import Mathlib

/-!
# VortexCut media engine — verification of spec claims

Shallow embedding of the core decode/render/export pipeline of the
`rust-engine` crate (timeline clips/tracks, LRU frame cache, decoder state
machine, renderer resolution, export job cancellation path, subtitle
overlay blending and BT.601 colour conversion, and the C ABI render entry
point).  Every definition is translated from the Rust source; effects that
depend on external libraries (FFmpeg container reads, the encoder, the
filesystem, mutexes) are modelled as explicit environment records whose
fields stand for the outcomes those calls would produce, so that each
function of the source becomes a pure Lean function of its receiver state
and such an environment.

Machine integers: the Rust code uses `i64`/`i32` for timestamps and
indices and `u8`/`u32` for pixel bytes.  Timestamps are modelled as `Int`
(no arithmetic in the sources can overflow 64 bits on the inputs the
claims range over) and pixel bytes as `Nat` with explicit `% 256` where
the source performs an `as u8` truncation.
-/

namespace VortexCut

/-! ## Timeline data model (`src/timeline/clip.rs`, `track.rs`, `timeline.rs`) -/

/-- `VideoClip` from `clip.rs`: a time-bounded reference to a source file.
`file_path` is the source path (`PathBuf` modelled as `String`). -/
structure VideoClip where
  id : Nat
  file_path : String
  start_time_ms : Int
  duration_ms : Int
  trim_start_ms : Int
  trim_end_ms : Int
  deriving Repr, DecidableEq

/-- `VideoClip::end_time_ms`. -/
def VideoClip.end_time_ms (c : VideoClip) : Int :=
  c.start_time_ms + c.duration_ms

/-- `VideoClip::contains_time`: `start ≤ t < start + duration`. -/
def VideoClip.contains_time (c : VideoClip) (time_ms : Int) : Bool :=
  time_ms ≥ c.start_time_ms && time_ms < c.end_time_ms

/-- `VideoClip::timeline_to_source_time`. -/
def VideoClip.timeline_to_source_time (c : VideoClip) (t : Int) : Option Int :=
  if !c.contains_time t then none
  else some (c.trim_start_ms + (t - c.start_time_ms))

/-- `VideoTrack` from `track.rs`: an ordered layer of clips.  `index` is the
track order (0 = bottom). -/
structure VideoTrack where
  id : Nat
  index : Nat
  clips : List VideoClip
  enabled : Bool
  deriving Repr, DecidableEq

/-- `VideoTrack::get_clip_at_time`: `None` when disabled, otherwise the first
clip (in stored order) containing `time_ms`. -/
def VideoTrack.get_clip_at_time (tr : VideoTrack) (time_ms : Int) : Option VideoClip :=
  if !tr.enabled then none
  else tr.clips.find? (fun c => c.contains_time time_ms)

/-- The `Timeline` fields the renderer reads (`timeline.rs`).  `fps` and the
audio side are not needed by the claims under verification. -/
structure Timeline where
  video_tracks : List VideoTrack
  deriving Repr, DecidableEq

/-! ## Rendered frames and the LRU `FrameCache` (`src/rendering/renderer.rs`) -/

/-- `RenderedFrame`: `data` is the pixel byte buffer (RGBA, or YUV420P when
`is_yuv`). -/
structure RenderedFrame where
  width : Nat
  height : Nat
  data : List Nat
  timestamp_ms : Int
  is_yuv : Bool
  deriving Repr, DecidableEq

/-- `CacheEntry` of the frame cache. -/
structure CacheEntry where
  file_path : String
  source_time_ms : Int
  frame : RenderedFrame
  deriving Repr, DecidableEq

/-- `FrameCache`: `entries` is the `VecDeque` front-first (front = oldest,
back = most recently used). -/
structure FrameCache where
  entries : List CacheEntry
  max_entries : Nat
  max_bytes : Nat
  current_bytes : Nat
  hit_count : Nat
  miss_count : Nat
  deriving Repr, DecidableEq

/-- `FrameCache::new`. -/
def FrameCache.new (max_entries max_bytes : Nat) : FrameCache :=
  { entries := [], max_entries := max_entries, max_bytes := max_bytes
    current_bytes := 0, hit_count := 0, miss_count := 0 }

/-- Whether a cache entry matches the lookup key, as in the closures of the
`iter().position(...)` searches of `get` and `put`. -/
def entryMatches (file_path : String) (source_time_ms : Int) (e : CacheEntry) : Prop :=
  e.file_path = file_path ∧ e.source_time_ms = source_time_ms

instance (fp : String) (t : Int) (e : CacheEntry) : Decidable (entryMatches fp t e) :=
  inferInstanceAs (Decidable (_ ∧ _))

/-- Position of the first entry matching `(file_path, source_time_ms)`, as in
the `iter().position(...)` searches of `get` and `put`. -/
def findEntryIdx (l : List CacheEntry) (file_path : String) (source_time_ms : Int) :
    Option Nat :=
  match l with
  | [] => none
  | e :: rest =>
      if entryMatches file_path source_time_ms e then some 0
      else (findEntryIdx rest file_path source_time_ms).map (· + 1)

/-- Position of the entry matching `(file_path, source_time_ms)` within the
cache's deque. -/
def FrameCache.findIdx (c : FrameCache) (file_path : String) (source_time_ms : Int) :
    Option Nat :=
  findEntryIdx c.entries file_path source_time_ms

/-- `FrameCache::get`: on hit, bump `hit_count` and move the entry to the back
(most recently used) unless it is already last; return the (promoted) frame.
On miss, bump `miss_count`.  Rust mutates `self`; we return the frame
together with the new cache state. -/
def FrameCache.get (c : FrameCache) (file_path : String) (source_time_ms : Int) :
    Option RenderedFrame × FrameCache :=
  match c.findIdx file_path source_time_ms with
  | some i =>
      if h : i < c.entries.length - 1 then
        let entry := c.entries.get ⟨i, lt_of_lt_of_le h (Nat.sub_le _ _)⟩
        let entries := c.entries.eraseIdx i ++ [entry]
        (some entry.frame, { c with entries := entries, hit_count := c.hit_count + 1 })
      else
        ((c.entries.getLast?).map (·.frame),
          { c with hit_count := c.hit_count + 1 })
  | none => (none, { c with miss_count := c.miss_count + 1 })

/-- The eviction loop of `FrameCache::put`: while the entry count is at the
cap or the byte total plus the incoming frame would exceed the byte cap,
and the cache is non-empty, pop the front (LRU) entry. -/
def FrameCache.evictLoop (entries : List CacheEntry) (current_bytes : Nat)
    (max_entries max_bytes frame_bytes : Nat) : List CacheEntry × Nat :=
  match entries with
  | [] => ([], current_bytes)
  | e :: rest =>
      if entries.length ≥ max_entries ∨ current_bytes + frame_bytes > max_bytes then
        FrameCache.evictLoop rest (current_bytes - e.frame.data.length)
          max_entries max_bytes frame_bytes
      else
        (entries, current_bytes)

/-- `FrameCache::put`: replace an existing entry for the key (adjusting the
byte counter), evict LRU entries while over either cap, then insert the new
entry at the back (most recently used). -/
def FrameCache.put (c : FrameCache) (file_path : String) (source_time_ms : Int)
    (frame : RenderedFrame) : FrameCache :=
  let frame_bytes := frame.data.length
  let removed : List CacheEntry × Nat :=
    match c.findIdx file_path source_time_ms with
    | some i =>
        let oldLen : Nat :=
          match c.entries[i]? with
          | some old => old.frame.data.length
          | none => 0
        (c.entries.eraseIdx i, c.current_bytes - oldLen)
    | none => (c.entries, c.current_bytes)
  let ev :=
    FrameCache.evictLoop removed.1 removed.2 c.max_entries c.max_bytes frame_bytes
  { c with
    entries := ev.1 ++ [{ file_path := file_path,
                          source_time_ms := source_time_ms, frame := frame }]
    current_bytes := ev.2 + frame_bytes }

/-- `FrameCache::clear`. -/
def FrameCache.clear (c : FrameCache) : FrameCache :=
  { c with entries := [], current_bytes := 0 }

/-- `FrameCache::stats`: `(entry count, byte counter)`. -/
def FrameCache.stats (c : FrameCache) : Nat × Nat :=
  (c.entries.length, c.current_bytes)

/-! ### Cache proof infrastructure -/

/-- The lookup key of a cache entry. -/
def entryKey (e : CacheEntry) : String × Int := (e.file_path, e.source_time_ms)

/-- Keys of a deque of entries, front first. -/
def cacheKeys (l : List CacheEntry) : List (String × Int) := l.map entryKey

/-- Actual sum of the entry byte sizes (what `current_bytes` accounts). -/
def byteSum (l : List CacheEntry) : Nat :=
  (l.map (fun e => e.frame.data.length)).sum

/-- Build the entry `put` inserts. -/
def mkEntry (k : String × Int) (f : RenderedFrame) : CacheEntry :=
  { file_path := k.1, source_time_ms := k.2, frame := f }

/-- One keyed `put`, for iterating `put` over a list of (key, frame) pairs. -/
def putItem (c : FrameCache) (it : (String × Int) × RenderedFrame) : FrameCache :=
  c.put it.1.1 it.1.2 it.2

/-- A sequence of `put` operations, first element first. -/
def putList (c : FrameCache) (items : List ((String × Int) × RenderedFrame)) :
    FrameCache :=
  items.foldl putItem c

/-- Total byte size of a list of frames to insert. -/
def itemsBytes (items : List ((String × Int) × RenderedFrame)) : Nat :=
  (items.map (fun it => it.2.data.length)).sum

theorem entryMatches_iff_key (fp : String) (t : Int) (e : CacheEntry) :
    entryMatches fp t e ↔ entryKey e = (fp, t) := by
  simp [entryMatches, entryKey, Prod.ext_iff]

theorem findEntryIdx_eq_none_iff (l : List CacheEntry) (fp : String) (t : Int) :
    findEntryIdx l fp t = none ↔ ∀ e ∈ l, ¬ entryMatches fp t e := by
  induction l with
  | nil => simp [findEntryIdx]
  | cons e rest ih =>
      by_cases h : entryMatches fp t e
      · simp [findEntryIdx, h]
      · simp [findEntryIdx, h, ih]

theorem findEntryIdx_of_mem_nodup (l : List CacheEntry) (e : CacheEntry)
    (he : e ∈ l) (hnd : (cacheKeys l).Nodup) :
    ∃ i, findEntryIdx l e.file_path e.source_time_ms = some i ∧ l.get? i = some e := by
  induction l with
  | nil => cases he
  | cons h rest ih =>
      rw [cacheKeys, List.map_cons, List.nodup_cons] at hnd
      by_cases hm : entryMatches e.file_path e.source_time_ms h
      · refine ⟨0, by simp [findEntryIdx, hm], ?_⟩
        rcases List.mem_cons.mp he with rfl | hmem
        · rfl
        · exact absurd (by
            rw [(entryMatches_iff_key _ _ _).mp hm]
            exact List.mem_map_of_mem entryKey hmem) hnd.1
      · have hne : e ≠ h := by
          rintro rfl
          exact hm ⟨rfl, rfl⟩
        rcases List.mem_cons.mp he with rfl | hmem
        · exact absurd rfl hne
        · obtain ⟨i, hfind, hget⟩ := ih hmem hnd.2
          exact ⟨i + 1, by simp [findEntryIdx, hm, hfind], by simpa using hget⟩

theorem FrameCache.get_of_none (c : FrameCache) (fp : String) (t : Int)
    (h : findEntryIdx c.entries fp t = none) :
    (c.get fp t) = (none, { c with miss_count := c.miss_count + 1 }) := by
  simp [FrameCache.get, FrameCache.findIdx, h]

theorem FrameCache.get_fst_of_idx (c : FrameCache) (fp : String) (t : Int)
    (i : Nat) (e : CacheEntry)
    (hfind : findEntryIdx c.entries fp t = some i)
    (hget : c.entries.get? i = some e) :
    (c.get fp t).1 = some e.frame := by
  obtain ⟨hlt, hgetE⟩ := List.get?_eq_some.mp hget
  have hEl : c.entries[i] = e := by rw [List.get_eq_getElem] at hgetE; exact hgetE
  rw [FrameCache.get, FrameCache.findIdx, hfind]
  by_cases h : i < c.entries.length - 1
  · simp [dif_pos h, hEl]
  · simp only [dif_neg h]
    have hi : i = c.entries.length - 1 := by omega
    have hlast : c.entries.getLast? = some e := by
      rw [List.getLast?_eq_get?, ← hi, hget]
    simp [hlast]

theorem FrameCache.evictLoop_of_fits (l : List CacheEntry) (b me mb fb : Nat)
    (hc : l.length < me) (hb : b + fb ≤ mb) :
    FrameCache.evictLoop l b me mb fb = (l, b) := by
  cases l with
  | nil => rfl
  | cons e rest =>
      rw [FrameCache.evictLoop, if_neg]
      push_neg
      exact ⟨by omega, by omega⟩

theorem FrameCache.evictLoop_evict_one (e : CacheEntry) (rest : List CacheEntry)
    (b me mb fb : Nat)
    (hfull : (e :: rest).length ≥ me)
    (hc : rest.length < me)
    (hb : b - e.frame.data.length + fb ≤ mb) :
    FrameCache.evictLoop (e :: rest) b me mb fb = (rest, b - e.frame.data.length) := by
  rw [FrameCache.evictLoop, if_pos (Or.inl hfull)]
  exact FrameCache.evictLoop_of_fits rest _ me mb fb hc hb

theorem FrameCache.put_fresh_fits (c : FrameCache) (k : String × Int)
    (f : RenderedFrame)
    (hfresh : findEntryIdx c.entries k.1 k.2 = none)
    (hc : c.entries.length < c.max_entries)
    (hb : c.current_bytes + f.data.length ≤ c.max_bytes) :
    c.put k.1 k.2 f =
      { c with entries := c.entries ++ [mkEntry k f],
               current_bytes := c.current_bytes + f.data.length } := by
  simp [FrameCache.put, FrameCache.findIdx, hfresh,
    FrameCache.evictLoop_of_fits c.entries c.current_bytes _ _ _ hc hb, mkEntry]

theorem FrameCache.put_fresh_evict_one (c : FrameCache) (k : String × Int)
    (f : RenderedFrame) (e : CacheEntry) (rest : List CacheEntry)
    (hs : c.entries = e :: rest)
    (hfresh : findEntryIdx c.entries k.1 k.2 = none)
    (hcap : c.entries.length ≥ c.max_entries)
    (hc : rest.length < c.max_entries)
    (hb : c.current_bytes - e.frame.data.length + f.data.length ≤ c.max_bytes) :
    c.put k.1 k.2 f =
      { c with entries := rest ++ [mkEntry k f],
               current_bytes :=
                 c.current_bytes - e.frame.data.length + f.data.length } := by
  have hf2 : findEntryIdx (e :: rest) k.1 k.2 = none := by rw [← hs]; exact hfresh
  have hcap2 : (e :: rest).length ≥ c.max_entries := by rw [← hs]; exact hcap
  simp only [FrameCache.put, FrameCache.findIdx, hs, hf2]
  rw [FrameCache.evictLoop_evict_one e rest _ _ _ _ hcap2 hc hb]
  simp [mkEntry]

/-- Filling a cache with fresh, pairwise-distinct keys under both caps just
appends the entries in order. -/
theorem putList_no_evict (c : FrameCache)
    (items : List ((String × Int) × RenderedFrame))
    (hfresh : ∀ it ∈ items, it.1 ∉ cacheKeys c.entries)
    (hnd : (items.map Prod.fst).Nodup)
    (hcount : c.entries.length + items.length ≤ c.max_entries)
    (hbytes : c.current_bytes + itemsBytes items ≤ c.max_bytes) :
    putList c items =
      { c with entries := c.entries ++ items.map (fun it => mkEntry it.1 it.2),
               current_bytes := c.current_bytes + itemsBytes items } := by
  induction items generalizing c with
  | nil => simp [putList, itemsBytes]
  | cons it rest ih =>
      have hib : itemsBytes (it :: rest) = it.2.data.length + itemsBytes rest := by
        simp [itemsBytes]
      have hfreshit : findEntryIdx c.entries it.1.1 it.1.2 = none := by
        rw [findEntryIdx_eq_none_iff]
        intro e hmem hm
        have hkey : entryKey e = it.1 := (entryMatches_iff_key _ _ _).mp hm
        exact hfresh it (List.mem_cons_self _ _)
          (hkey ▸ List.mem_map_of_mem entryKey hmem)
      have hb1 : c.current_bytes + it.2.data.length ≤ c.max_bytes := by omega
      have hc1 : c.entries.length < c.max_entries := by
        simp only [List.length_cons] at hcount; omega
      have hput := FrameCache.put_fresh_fits c it.1 it.2 hfreshit hc1 hb1
      have hfresh2 : ∀ jt ∈ rest, jt.1 ∉ cacheKeys (c.put it.1.1 it.1.2 it.2).entries := by
        intro jt hjt
        rw [hput]
        simp only [cacheKeys, List.map_append]
        intro hmem
        rcases List.mem_append.mp hmem with hl | hr
        · exact hfresh jt (List.mem_cons_of_mem _ hjt) hl
        · simp only [mkEntry, entryKey, List.map_cons, List.map_nil,
            List.mem_singleton] at hr
          have hr2 : jt.1 = it.1 := hr
          exact (List.nodup_cons.mp hnd).1 (hr2 ▸ List.mem_map_of_mem Prod.fst hjt)
      have hcount2 : (c.put it.1.1 it.1.2 it.2).entries.length + rest.length
          ≤ (c.put it.1.1 it.1.2 it.2).max_entries := by
        rw [hput]
        simp only [List.length_append, List.length_cons] at hcount ⊢
        simp only [List.length_cons, List.length_nil]
        omega
      have hbytes2 : (c.put it.1.1 it.1.2 it.2).current_bytes + itemsBytes rest
          ≤ (c.put it.1.1 it.1.2 it.2).max_bytes := by
        rw [hput]; simp only; omega
      have hstep : putList c (it :: rest) = putList (c.put it.1.1 it.1.2 it.2) rest := rfl
      rw [hstep, ih _ hfresh2 (List.nodup_cons.mp hnd).2 hcount2 hbytes2, hput]
      simp only [List.map_cons, List.append_assoc, List.singleton_append, hib]
      rw [FrameCache.mk.injEq]
      refine ⟨rfl, rfl, rfl, by omega, rfl, rfl⟩

theorem cacheKeys_map_mkEntry (l : List ((String × Int) × RenderedFrame)) :
    cacheKeys (l.map (fun it => mkEntry it.1 it.2)) = l.map Prod.fst := by
  simp [cacheKeys, entryKey, mkEntry]

theorem itemsBytes_append (l₁ l₂ : List ((String × Int) × RenderedFrame)) :
    itemsBytes (l₁ ++ l₂) = itemsBytes l₁ + itemsBytes l₂ := by
  simp [itemsBytes]

theorem findEntryIdx_none_of_key_not_mem (l : List CacheEntry) (fp : String) (t : Int)
    (h : (fp, t) ∉ cacheKeys l) : findEntryIdx l fp t = none := by
  rw [findEntryIdx_eq_none_iff]
  intro e hmem hm
  exact h ((entryMatches_iff_key _ _ _).mp hm ▸ List.mem_map_of_mem entryKey hmem)

/-- **C8.** After `N+1` `put`s with pairwise-distinct keys into a cache with
entry cap `N ≥ 1` (byte cap not binding: total inserted bytes within the
cap), the first key inserted is evicted (`get` misses) and each of the `N`
later keys is present (`get` returns its frame).  Quantifying the sequence
as `(it0 :: mid) ++ [itN]` with `mid.length + 1 = N` covers exactly the
sequences of `N+1` puts. -/
theorem frameCache_evicts_exactly_first_key
    (N B : Nat) (hN : 1 ≤ N)
    (it0 itN : (String × Int) × RenderedFrame)
    (mid : List ((String × Int) × RenderedFrame))
    (hmid : mid.length + 1 = N)
    (hnd : (((it0 :: mid) ++ [itN]).map Prod.fst).Nodup)
    (hB : itemsBytes ((it0 :: mid) ++ [itN]) ≤ B) :
    ((putList (FrameCache.new N B) ((it0 :: mid) ++ [itN])).get it0.1.1 it0.1.2).1 = none ∧
    ∀ it ∈ mid ++ [itN],
      ((putList (FrameCache.new N B) ((it0 :: mid) ++ [itN])).get it.1.1 it.1.2).1 =
        some it.2 := by
  have hndFill : ((it0 :: mid).map Prod.fst).Nodup := by
    rw [List.map_append] at hnd
    exact (List.nodup_append.mp hnd).1
  have hBsplit := itemsBytes_append (it0 :: mid) [itN]
  have hfill := putList_no_evict (FrameCache.new N B) (it0 :: mid)
    (by intro it _ h; simp [FrameCache.new, cacheKeys] at h)
    hndFill
    (by simp [FrameCache.new]; omega)
    (by simp [FrameCache.new]; omega)
  have hsplit : putList (FrameCache.new N B) ((it0 :: mid) ++ [itN]) =
      putItem (putList (FrameCache.new N B) (it0 :: mid)) itN := by
    rw [putList, List.foldl_append]; rfl
  have hkeysFill : cacheKeys (putList (FrameCache.new N B) (it0 :: mid)).entries =
      (it0 :: mid).map Prod.fst := by
    rw [hfill]
    simp only [FrameCache.new, List.nil_append]
    exact cacheKeys_map_mkEntry _
  have hfreshN : findEntryIdx (putList (FrameCache.new N B) (it0 :: mid)).entries
      itN.1.1 itN.1.2 = none := by
    apply findEntryIdx_none_of_key_not_mem
    rw [hkeysFill]
    rw [List.map_append, List.nodup_append] at hnd
    intro hmem
    exact hnd.2.2 hmem (by simp)
  have hentriesFill : (putList (FrameCache.new N B) (it0 :: mid)).entries =
      mkEntry it0.1 it0.2 :: mid.map (fun it => mkEntry it.1 it.2) := by
    rw [hfill]; simp [FrameCache.new]
  have hbytesFill : (putList (FrameCache.new N B) (it0 :: mid)).current_bytes =
      itemsBytes (it0 :: mid) := by
    rw [hfill]; simp [FrameCache.new]
  have hlenFill : (putList (FrameCache.new N B) (it0 :: mid)).entries.length = N := by
    rw [hentriesFill]; simp; omega
  have hib0 : itemsBytes (it0 :: mid) = it0.2.data.length + itemsBytes mid := by
    simp [itemsBytes]
  have hibN : itemsBytes [itN] = itN.2.data.length := by simp [itemsBytes]
  have hmaxE : (putList (FrameCache.new N B) (it0 :: mid)).max_entries = N := by
    rw [hfill]; rfl
  have hmaxB : (putList (FrameCache.new N B) (it0 :: mid)).max_bytes = B := by
    rw [hfill]; rfl
  have hevict := FrameCache.put_fresh_evict_one
    (putList (FrameCache.new N B) (it0 :: mid)) itN.1 itN.2
    (mkEntry it0.1 it0.2) (mid.map (fun it => mkEntry it.1 it.2))
    hentriesFill hfreshN
    (by rw [hlenFill, hmaxE])
    (by rw [hmaxE]; simp; omega)
    (by
      rw [hmaxB, hbytesFill, hib0]
      simp only [mkEntry]
      rw [hBsplit, hib0, hibN] at hB
      omega)
  have hfinal : putList (FrameCache.new N B) ((it0 :: mid) ++ [itN]) =
      { putList (FrameCache.new N B) (it0 :: mid) with
        entries := mid.map (fun it => mkEntry it.1 it.2) ++ [mkEntry itN.1 itN.2],
        current_bytes := (putList (FrameCache.new N B) (it0 :: mid)).current_bytes
          - (mkEntry it0.1 it0.2).frame.data.length + itN.2.data.length } := by
    rw [hsplit, putItem, hevict]
  have hkeysFinal : cacheKeys (mid.map (fun it => mkEntry it.1 it.2) ++
      [mkEntry itN.1 itN.2]) = (mid ++ [itN]).map Prod.fst := by
    simp [cacheKeys, entryKey, mkEntry]
  have hndTail : ((mid ++ [itN]).map Prod.fst).Nodup := by
    rw [List.cons_append, List.map_cons, List.nodup_cons] at hnd
    exact hnd.2
  constructor
  · rw [hfinal]
    rw [FrameCache.get_of_none]
    apply findEntryIdx_none_of_key_not_mem
    rw [hkeysFinal]
    intro hmem
    rw [List.cons_append, List.map_cons, List.nodup_cons] at hnd
    exact hnd.1 hmem
  · intro it hit
    rw [hfinal]
    have hmem : mkEntry it.1 it.2 ∈
        mid.map (fun jt => mkEntry jt.1 jt.2) ++ [mkEntry itN.1 itN.2] := by
      have : mkEntry it.1 it.2 ∈ (mid ++ [itN]).map (fun jt => mkEntry jt.1 jt.2) := by
        exact List.mem_map_of_mem _ hit
      rw [List.map_append] at this
      simpa using this
    obtain ⟨i, hfind, hget⟩ := findEntryIdx_of_mem_nodup _ (mkEntry it.1 it.2) hmem
      (by rw [hkeysFinal]; exact hndTail)
    exact FrameCache.get_fst_of_idx _ _ _ i (mkEntry it.1 it.2) hfind hget

/-- Concrete items for the C8 witness. -/
def w8a : (String × Int) × RenderedFrame := (("a", 0), ⟨1, 1, [9], 0, false⟩)

/-- Concrete items for the C8 witness. -/
def w8b : (String × Int) × RenderedFrame := (("b", 0), ⟨1, 1, [8], 0, false⟩)

/-- Concrete items for the C8 witness. -/
def w8c : (String × Int) × RenderedFrame := (("c", 0), ⟨1, 1, [7], 0, false⟩)

/-- Witness for C8 at `N = 2`, `B = 1000`, keys `a, b, c`: `a` is evicted,
`b` and `c` hit. -/
theorem frameCache_evicts_exactly_first_key_witness :
    (1 : Nat) ≤ 2 ∧ ([w8b].length + 1 = 2) ∧
    (((w8a :: [w8b]) ++ [w8c]).map Prod.fst).Nodup ∧
    itemsBytes ((w8a :: [w8b]) ++ [w8c]) ≤ 1000 ∧
    (((putList (FrameCache.new 2 1000) ((w8a :: [w8b]) ++ [w8c])).get
        w8a.1.1 w8a.1.2).1 = none ∧
      ∀ it ∈ [w8b] ++ [w8c],
        ((putList (FrameCache.new 2 1000) ((w8a :: [w8b]) ++ [w8c])).get
          it.1.1 it.1.2).1 = some it.2) :=
  ⟨by decide, by decide, by decide, by decide,
    frameCache_evicts_exactly_first_key 2 1000 (by decide) w8a w8c [w8b]
      (by decide) (by decide) (by decide)⟩

/-! ### Invariant machinery for arbitrary cache operation sequences (C4) -/

theorem cacheKeys_cons (x : CacheEntry) (l : List CacheEntry) :
    cacheKeys (x :: l) = entryKey x :: cacheKeys l := rfl

theorem findEntryIdx_some_spec (l : List CacheEntry) (fp : String) (t : Int) :
    ∀ i, findEntryIdx l fp t = some i →
      ∃ e, l[i]? = some e ∧ entryMatches fp t e := by
  induction l with
  | nil => intro i h; simp [findEntryIdx] at h
  | cons e rest ih =>
      intro i h
      by_cases hm : entryMatches fp t e
      · rw [findEntryIdx, if_pos hm] at h
        cases h
        exact ⟨e, by simp, hm⟩
      · rw [findEntryIdx, if_neg hm] at h
        cases hf : findEntryIdx rest fp t with
        | none =>
            rw [hf] at h
            exact Option.noConfusion h
        | some j =>
            rw [hf] at h
            obtain ⟨e', hget, hm'⟩ := ih j hf
            have hj : j + 1 = i := Option.some_inj.mp h
            cases hj
            exact ⟨e', by simpa using hget, hm'⟩

theorem byteSum_append (l₁ l₂ : List CacheEntry) :
    byteSum (l₁ ++ l₂) = byteSum l₁ + byteSum l₂ := by
  simp [byteSum]

theorem byteSum_eraseIdx (l : List CacheEntry) :
    ∀ i e, l[i]? = some e →
      byteSum l = byteSum (l.eraseIdx i) + e.frame.data.length := by
  induction l with
  | nil => intro i e h; simp at h
  | cons x rest ih =>
      intro i e h
      cases i with
      | zero =>
          simp at h
          subst h
          simp [byteSum, List.eraseIdx]
          omega
      | succ j =>
          simp at h
          have := ih j e h
          simp [byteSum, List.eraseIdx] at this ⊢
          omega

theorem length_eraseIdx_get (l : List CacheEntry) :
    ∀ i (e : CacheEntry), l[i]? = some e → (l.eraseIdx i).length + 1 = l.length := by
  induction l with
  | nil => intro i e h; simp at h
  | cons x rest ih =>
      intro i e h
      cases i with
      | zero => simp [List.eraseIdx]
      | succ j =>
          simp at h
          have := ih j e h
          simp [List.eraseIdx]
          omega

theorem cacheKeys_eraseIdx (l : List CacheEntry) :
    ∀ i, cacheKeys (l.eraseIdx i) = (cacheKeys l).eraseIdx i := by
  induction l with
  | nil => intro i; simp [cacheKeys]
  | cons x rest ih =>
      intro i
      cases i with
      | zero => simp [cacheKeys, List.eraseIdx]
      | succ j =>
          rw [List.eraseIdx_cons_succ, cacheKeys_cons, cacheKeys_cons,
            List.eraseIdx_cons_succ, ih j]

theorem cacheKeys_drop (l : List CacheEntry) (k : Nat) :
    cacheKeys (l.drop k) = (cacheKeys l).drop k := by
  simp [cacheKeys, List.map_drop]

theorem cacheKeys_append (l₁ l₂ : List CacheEntry) :
    cacheKeys (l₁ ++ l₂) = cacheKeys l₁ ++ cacheKeys l₂ := by
  simp [cacheKeys]

theorem nodup_not_mem_erase {α : Type} [BEq α] [LawfulBEq α] (l : List α) (a : α)
    (h : l.Nodup) : a ∉ l.erase a := by
  induction l with
  | nil => simp
  | cons x xs ih =>
      rw [List.erase_cons]
      by_cases hx : x = a
      · subst hx
        rw [if_pos (by simp)]
        exact (List.nodup_cons.mp h).1
      · rw [if_neg (by simp [hx])]
        intro hmem
        rcases List.mem_cons.mp hmem with ha | hmem2
        · exact hx ha.symm
        · exact ih (List.nodup_cons.mp h).2 hmem2

theorem eraseIdx_eq_erase_of_nodup {α : Type} [BEq α] [LawfulBEq α] (l : List α) :
    ∀ (i : Nat) (a : α), l.Nodup → l[i]? = some a → l.eraseIdx i = l.erase a := by
  induction l with
  | nil => intro i a _ h; simp at h
  | cons x rest ih =>
      intro i a hnd h
      cases i with
      | zero =>
          simp at h
          subst h
          rw [List.eraseIdx_cons_zero, List.erase_cons_head]
      | succ j =>
          simp at h
          have hmem : a ∈ rest := by
            obtain ⟨hj, rfl⟩ := List.getElem?_eq_some_iff.mp h
            exact List.getElem_mem hj
          have hxa : ¬ (x == a) = true := by
            simp only [beq_iff_eq]
            rintro rfl
            exact (List.nodup_cons.mp hnd).1 hmem
          rw [List.eraseIdx_cons_succ, List.erase_cons_tail hxa,
            ih j a (List.nodup_cons.mp hnd).2 h]

theorem evictLoop_spec (me mb fb : Nat) (l : List CacheEntry) :
    ∃ k, FrameCache.evictLoop l (byteSum l) me mb fb = (l.drop k, byteSum (l.drop k)) ∧
      (l.drop k = [] ∨ ((l.drop k).length < me ∧ byteSum (l.drop k) + fb ≤ mb)) := by
  induction l with
  | nil => exact ⟨0, rfl, Or.inl rfl⟩
  | cons e rest ih =>
      by_cases hcond : (e :: rest).length ≥ me ∨ byteSum (e :: rest) + fb > mb
      · obtain ⟨k, hev, hdone⟩ := ih
        refine ⟨k + 1, ?_, ?_⟩
        · rw [FrameCache.evictLoop, if_pos hcond]
          have hb : byteSum (e :: rest) - e.frame.data.length = byteSum rest := by
            simp [byteSum]
          rw [hb, hev]
          simp
        · simpa using hdone
      · refine ⟨0, ?_, ?_⟩
        · rw [List.drop_zero, FrameCache.evictLoop, if_neg hcond]
        · rw [List.drop_zero]
          push_neg at hcond
          exact Or.inr ⟨by omega, by omega⟩

theorem sublist_move_last {α : Type} [BEq α] [LawfulBEq α] (xs R : List α) (a : α)
    (hnd : xs.Nodup) (hsub : List.Sublist xs R)
    (hlast : xs[xs.length - 1]? = some a) :
    List.Sublist xs (R.erase a ++ [a]) := by
  have hne : xs ≠ [] := by
    rintro rfl
    simp at hlast
  have hdecomp : xs.dropLast ++ [xs.getLast hne] = xs := List.dropLast_append_getLast hne
  have hlastval : xs.getLast hne = a := by
    have h1 := List.getLast?_eq_getElem? xs
    rw [hlast] at h1
    have h2 := List.getLast?_eq_getLast xs hne
    rw [h2] at h1
    exact Option.some_inj.mp h1
  have hanotin : a ∉ xs.dropLast := by
    intro hmem
    have hbad : ¬ (xs.dropLast ++ [xs.getLast hne]).Nodup := by
      rw [hlastval]
      intro hn
      rcases List.nodup_append.mp hn with ⟨_, _, hdisj⟩
      exact hdisj hmem (by simp)
    rw [hdecomp] at hbad
    exact hbad hnd
  have hsubInit : List.Sublist xs.dropLast (R.erase a) := by
    have h1 : List.Sublist xs.dropLast xs := by
      conv_rhs => rw [← hdecomp]
      exact List.sublist_append_left _ _
    have h3 := (h1.trans hsub).erase a
    rw [List.erase_of_not_mem hanotin] at h3
    exact h3
  have h4 : List.Sublist xs (xs.dropLast ++ [a]) := by
    rw [← hlastval, hdecomp]
  exact h4.trans (hsubInit.append (List.Sublist.refl [a]))

/-- The cache-facing operations: `put`, `get`, `clear`. -/
inductive CacheOp where
  | put (file_path : String) (source_time_ms : Int) (frame : RenderedFrame)
  | get (file_path : String) (source_time_ms : Int)
  | clear
  deriving Repr, DecidableEq

/-- Byte size a `put` operation inserts (0 for the other operations). -/
def CacheOp.putSize : CacheOp → Nat
  | .put _ _ f => f.data.length
  | _ => 0

/-- Ghost recency trace alongside the cache state: `put` and a `get` hit move
the key to the back of the trace; a `get` miss and `clear` leave it unchanged.
The trace is the specification-side reading of "entries are in LRU order,
oldest at the front, most recently used at the back": the concrete entry keys
must form an order-preserving sublist of it. -/
def recencyStep (st : FrameCache × List (String × Int)) (op : CacheOp) :
    FrameCache × List (String × Int) :=
  match op with
  | .put fp t f => (st.1.put fp t f, st.2.erase (fp, t) ++ [(fp, t)])
  | .get fp t =>
      match findEntryIdx st.1.entries fp t with
      | some _ => ((st.1.get fp t).2, st.2.erase (fp, t) ++ [(fp, t)])
      | none => ((st.1.get fp t).2, st.2)
  | .clear => (st.1.clear, st.2)

/-- Run a sequence of cache operations with the ghost recency trace. -/
def runCacheOps (st : FrameCache × List (String × Int)) (ops : List CacheOp) :
    FrameCache × List (String × Int) :=
  ops.foldl recencyStep st

/-- The C4 invariants relative to the caps and the recency trace. -/
def CacheWF (N B : Nat) (c : FrameCache) (R : List (String × Int)) : Prop :=
  c.max_entries = N ∧ c.max_bytes = B ∧
  c.current_bytes = byteSum c.entries ∧
  byteSum c.entries ≤ B ∧
  c.entries.length ≤ N ∧
  (cacheKeys c.entries).Nodup ∧
  List.Sublist (cacheKeys c.entries) R

theorem cacheKeys_singleton_mkEntry (k : String × Int) (f : RenderedFrame) :
    cacheKeys [mkEntry k f] = [k] := rfl

/-- After evicting a prefix and inserting a fresh key at the back, the four
shape invariants hold. -/
theorem cacheWF_parts (N B : Nat) (hN : 1 ≤ N) (l₁ : List CacheEntry)
    (R : List (String × Int)) (k : String × Int) (f : RenderedFrame) (kk : Nat)
    (hf : f.data.length ≤ B)
    (hnd₁ : (cacheKeys l₁).Nodup)
    (hnotmem : k ∉ cacheKeys l₁)
    (hsub₁ : List.Sublist (cacheKeys l₁) (R.erase k))
    (hcond : l₁.drop kk = [] ∨
      ((l₁.drop kk).length < N ∧ byteSum (l₁.drop kk) + f.data.length ≤ B)) :
    byteSum (l₁.drop kk ++ [mkEntry k f]) ≤ B ∧
    (l₁.drop kk ++ [mkEntry k f]).length ≤ N ∧
    (cacheKeys (l₁.drop kk ++ [mkEntry k f])).Nodup ∧
    List.Sublist (cacheKeys (l₁.drop kk ++ [mkEntry k f])) (R.erase k ++ [k]) := by
  have hdropsub : List.Sublist (cacheKeys (l₁.drop kk)) (cacheKeys l₁) := by
    rw [cacheKeys_drop]
    exact List.drop_sublist kk (cacheKeys l₁)
  have hnddrop : (cacheKeys (l₁.drop kk)).Nodup := hnd₁.sublist hdropsub
  have hnotdrop : k ∉ cacheKeys (l₁.drop kk) := fun hm => hnotmem (hdropsub.mem hm)
  have hkeys : cacheKeys (l₁.drop kk ++ [mkEntry k f]) =
      cacheKeys (l₁.drop kk) ++ [k] := by
    rw [cacheKeys_append, cacheKeys_singleton_mkEntry]
  refine ⟨?_, ?_, ?_, ?_⟩
  · rw [byteSum_append]
    rcases hcond with hemp | ⟨_, hb⟩
    · rw [hemp]
      simp [byteSum, mkEntry]
      omega
    · have : byteSum [mkEntry k f] = f.data.length := by simp [byteSum, mkEntry]
      omega
  · rw [List.length_append]
    rcases hcond with hemp | ⟨hlen, _⟩
    · rw [hemp]; simpa using hN
    · simp only [List.length_cons, List.length_nil]
      omega
  · rw [hkeys]
    refine List.Nodup.append hnddrop (by simp) ?_
    intro a ha hb
    simp only [List.mem_singleton] at hb
    exact hnotdrop (hb ▸ ha)
  · rw [hkeys]
    exact (hdropsub.trans hsub₁).append (List.Sublist.refl [k])

/-- `put` preserves the C4 invariants, moving the key to the back of the
recency trace, provided the inserted frame fits in the byte cap. -/
theorem cacheWF_put (N B : Nat) (hN : 1 ≤ N) (c : FrameCache)
    (R : List (String × Int)) (fp : String) (t : Int) (f : RenderedFrame)
    (hf : f.data.length ≤ B) (hwf : CacheWF N B c R) :
    CacheWF N B (c.put fp t f) (R.erase (fp, t) ++ [(fp, t)]) := by
  obtain ⟨hme, hmb, hacc, hbb, hcnt, hnd, hsub⟩ := hwf
  cases hfind : findEntryIdx c.entries fp t with
  | none =>
      have hknotmem : (fp, t) ∉ cacheKeys c.entries := by
        intro hmem
        obtain ⟨e, hemem, hekey⟩ := List.mem_map.mp hmem
        exact (findEntryIdx_eq_none_iff _ _ _).mp hfind e hemem
          ((entryMatches_iff_key fp t e).mpr hekey)
      have hkeyserase : (cacheKeys c.entries).erase (fp, t) = cacheKeys c.entries :=
        List.erase_of_not_mem hknotmem
      obtain ⟨kk, hev, hcond⟩ :=
        evictLoop_spec c.max_entries c.max_bytes f.data.length c.entries
      rw [← hacc] at hev
      have hput : c.put fp t f =
          { c with
            entries := c.entries.drop kk ++ [mkEntry (fp, t) f],
            current_bytes := byteSum (c.entries.drop kk) + f.data.length } := by
        simp only [FrameCache.put, FrameCache.findIdx, hfind, hev]
        rfl
      rw [hme, hmb] at hcond
      have hparts := cacheWF_parts N B hN c.entries R (fp, t) f kk hf hnd hknotmem
        (hkeyserase ▸ hsub.erase (fp, t)) hcond
      rw [hput]
      refine ⟨hme, hmb, ?_, hparts.1, hparts.2.1, hparts.2.2.1, hparts.2.2.2⟩
      simp only
      rw [byteSum_append]
      simp [byteSum, mkEntry]
  | some i =>
      obtain ⟨e, hgete, hmE⟩ := findEntryIdx_some_spec c.entries fp t i hfind
      have hekey : entryKey e = (fp, t) := (entryMatches_iff_key fp t e).mp hmE
      have hkeysI : (cacheKeys c.entries)[i]? = some (fp, t) := by
        simp [cacheKeys, List.getElem?_map, hgete, hekey]
      have hkeyserase : cacheKeys (c.entries.eraseIdx i) =
          (cacheKeys c.entries).erase (fp, t) := by
        rw [cacheKeys_eraseIdx]
        exact eraseIdx_eq_erase_of_nodup (cacheKeys c.entries) i (fp, t) hnd hkeysI
      have hb1 : c.current_bytes - e.frame.data.length =
          byteSum (c.entries.eraseIdx i) := by
        have := byteSum_eraseIdx c.entries i e hgete
        omega
      obtain ⟨kk, hev, hcond⟩ :=
        evictLoop_spec c.max_entries c.max_bytes f.data.length (c.entries.eraseIdx i)
      rw [← hb1] at hev
      have hput : c.put fp t f =
          { c with
            entries := (c.entries.eraseIdx i).drop kk ++ [mkEntry (fp, t) f],
            current_bytes :=
              byteSum ((c.entries.eraseIdx i).drop kk) + f.data.length } := by
        simp only [FrameCache.put, FrameCache.findIdx, hfind, hgete, hev]
        rfl
      rw [hme, hmb] at hcond
      have hparts := cacheWF_parts N B hN (c.entries.eraseIdx i) R (fp, t) f kk hf
        (by rw [hkeyserase]; exact hnd.sublist (List.erase_sublist _ _))
        (by rw [hkeyserase]; exact nodup_not_mem_erase _ _ hnd)
        (by rw [hkeyserase]; exact hsub.erase (fp, t)) hcond
      rw [hput]
      refine ⟨hme, hmb, ?_, hparts.1, hparts.2.1, hparts.2.2.1, hparts.2.2.2⟩
      simp only
      rw [byteSum_append]
      simp [byteSum, mkEntry]

/-- `get` preserves the C4 invariants; a hit moves the key to the back of the
recency trace, a miss changes neither entries nor trace. -/
theorem cacheWF_get (N B : Nat) (c : FrameCache) (R : List (String × Int))
    (fp : String) (t : Int) (hwf : CacheWF N B c R) :
    CacheWF N B ((c.get fp t).2)
      (match findEntryIdx c.entries fp t with
        | some _ => R.erase (fp, t) ++ [(fp, t)]
        | none => R) := by
  obtain ⟨hme, hmb, hacc, hbb, hcnt, hnd, hsub⟩ := hwf
  cases hfind : findEntryIdx c.entries fp t with
  | none =>
      rw [FrameCache.get_of_none c fp t hfind]
      exact ⟨hme, hmb, hacc, hbb, hcnt, hnd, hsub⟩
  | some i =>
      obtain ⟨e, hgete, hmE⟩ := findEntryIdx_some_spec c.entries fp t i hfind
      have hekey : entryKey e = (fp, t) := (entryMatches_iff_key fp t e).mp hmE
      have hkeysI : (cacheKeys c.entries)[i]? = some (fp, t) := by
        simp [cacheKeys, List.getElem?_map, hgete, hekey]
      obtain ⟨hil, hElem⟩ := List.getElem?_eq_some_iff.mp hgete
      by_cases hlt : i < c.entries.length - 1
      · have hget2 : (c.get fp t).2 =
            { c with entries := c.entries.eraseIdx i ++ [e],
                     hit_count := c.hit_count + 1 } := by
          rw [FrameCache.get, FrameCache.findIdx, hfind]
          simp only [dif_pos hlt, List.get_eq_getElem, hElem]
        rw [hget2]
        have hkeyserase : cacheKeys (c.entries.eraseIdx i) =
            (cacheKeys c.entries).erase (fp, t) := by
          rw [cacheKeys_eraseIdx]
          exact eraseIdx_eq_erase_of_nodup (cacheKeys c.entries) i (fp, t) hnd hkeysI
        have hbsplit := byteSum_eraseIdx c.entries i e hgete
        have hlen := length_eraseIdx_get c.entries i e hgete
        have hparts := cacheWF_parts N B (by omega) (c.entries.eraseIdx i) R
          (fp, t) e.frame 0
          (by omega)
          (by rw [hkeyserase]; exact hnd.sublist (List.erase_sublist _ _))
          (by rw [hkeyserase]; exact nodup_not_mem_erase _ _ hnd)
          (by rw [hkeyserase]; exact hsub.erase (fp, t))
          (Or.inr ⟨by rw [List.drop_zero]; omega, by rw [List.drop_zero]; omega⟩)
        rw [List.drop_zero] at hparts
        have heMk : mkEntry (fp, t) e.frame = e := by
          cases e with
          | mk f1 t1 fr =>
              simp only [entryKey, Prod.mk.injEq] at hekey
              simp [mkEntry, hekey.1, hekey.2]
        rw [heMk] at hparts
        refine ⟨hme, hmb, ?_, hparts.1, hparts.2.1, hparts.2.2.1, hparts.2.2.2⟩
        show c.current_bytes = byteSum (c.entries.eraseIdx i ++ [e])
        rw [byteSum_append, hacc, hbsplit]
        simp [byteSum]
      · have hget2 : (c.get fp t).2 = { c with hit_count := c.hit_count + 1 } := by
          rw [FrameCache.get, FrameCache.findIdx, hfind]
          simp only [dif_neg hlt]
        rw [hget2]
        refine ⟨hme, hmb, hacc, hbb, hcnt, hnd, ?_⟩
        apply sublist_move_last _ _ _ hnd hsub
        have hkl : (cacheKeys c.entries).length = c.entries.length := by
          simp [cacheKeys]
        have hieq : i = c.entries.length - 1 := by omega
        rw [hkl, ← hieq]
        exact hkeysI

/-- `clear` preserves the C4 invariants with the trace unchanged. -/
theorem cacheWF_clear (N B : Nat) (c : FrameCache) (R : List (String × Int))
    (hwf : CacheWF N B c R) : CacheWF N B c.clear R := by
  obtain ⟨hme, hmb, _, _, _, _, _⟩ := hwf
  refine ⟨hme, hmb, rfl, ?_, ?_, ?_, ?_⟩ <;>
    simp [FrameCache.clear, byteSum, cacheKeys]

/-- Running any admissible operation sequence preserves the C4 invariants. -/
theorem cacheWF_run (N B : Nat) (hN : 1 ≤ N) :
    ∀ (ops : List CacheOp) (st : FrameCache × List (String × Int)),
      (∀ op ∈ ops, op.putSize ≤ B) →
      CacheWF N B st.1 st.2 →
      CacheWF N B (runCacheOps st ops).1 (runCacheOps st ops).2 := by
  intro ops
  induction ops with
  | nil => intro st _ h; exact h
  | cons op rest ih =>
      intro st hsz hwf
      have hstep : CacheWF N B (recencyStep st op).1 (recencyStep st op).2 := by
        cases op with
        | put fp t f =>
            exact cacheWF_put N B hN st.1 st.2 fp t f
              (by simpa [CacheOp.putSize] using hsz _ (List.mem_cons_self _ _)) hwf
        | get fp t =>
            have hg := cacheWF_get N B st.1 st.2 fp t hwf
            cases hfind : findEntryIdx st.1.entries fp t with
            | none => rw [hfind] at hg; simpa [recencyStep, hfind] using hg
            | some j => rw [hfind] at hg; simpa [recencyStep, hfind] using hg
        | clear => exact cacheWF_clear N B st.1 st.2 hwf
      have hrun : runCacheOps st (op :: rest) = runCacheOps (recencyStep st op) rest :=
        rfl
      rw [hrun]
      exact ih _ (fun o ho => hsz o (List.mem_cons_of_mem _ ho)) hstep

/-- **C4 counterexample.** A single `put` of a frame larger than the byte cap
(11 bytes against a 10-byte cap) leaves the cache holding it, so the sum of
entry byte sizes exceeds the byte cap: the claim fails for frames larger than
the byte cap. -/
theorem frameCache_byte_cap_counterexample :
    ¬ (byteSum (runCacheOps (FrameCache.new 60 10, [])
        [CacheOp.put "a" 0 ⟨1, 1, List.replicate 11 0, 0, false⟩]).1.entries ≤
      (runCacheOps (FrameCache.new 60 10, [])
        [CacheOp.put "a" 0 ⟨1, 1, List.replicate 11 0, 0, false⟩]).1.max_bytes) := by
  decide

/-- **C4** (amended).  After every sequence of `FrameCache` operations (`put`,
`get`, `clear`) starting from an empty cache with entry cap `N ≥ 1` and byte
cap `B`, *provided every inserted frame is at most `B` bytes* (a frame larger
than the byte cap ends up as the sole entry, exceeding the cap), the cache
satisfies: the byte counter accounts the sum of entry byte sizes, that sum is
at most the byte cap, the entry count is at most the entry cap, and the
entries are in LRU order: their keys are pairwise distinct and form an
order-preserving sublist of the recency trace (oldest at the front, most
recently used at the back). -/
theorem frameCache_invariants_hold (N B : Nat) (hN : 1 ≤ N) (ops : List CacheOp)
    (hsz : ∀ op ∈ ops, op.putSize ≤ B) :
    byteSum (runCacheOps (FrameCache.new N B, []) ops).1.entries ≤ B ∧
    (runCacheOps (FrameCache.new N B, []) ops).1.entries.length ≤ N ∧
    (runCacheOps (FrameCache.new N B, []) ops).1.current_bytes =
      byteSum (runCacheOps (FrameCache.new N B, []) ops).1.entries ∧
    (cacheKeys (runCacheOps (FrameCache.new N B, []) ops).1.entries).Nodup ∧
    List.Sublist (cacheKeys (runCacheOps (FrameCache.new N B, []) ops).1.entries)
      (runCacheOps (FrameCache.new N B, []) ops).2 := by
  have h0 : CacheWF N B (FrameCache.new N B, ([] : List (String × Int))).1
      (FrameCache.new N B, ([] : List (String × Int))).2 := by
    refine ⟨rfl, rfl, rfl, ?_, ?_, ?_, ?_⟩ <;>
      simp [FrameCache.new, byteSum, cacheKeys]
  obtain ⟨_, _, hacc, hbb, hcnt, hnd, hsub⟩ := cacheWF_run N B hN ops _ hsz h0
  exact ⟨hbb, hcnt, hacc, hnd, hsub⟩

/-- Concrete operation sequence for the C4 witness. -/
def w4ops : List CacheOp :=
  [CacheOp.put "a" 0 ⟨1, 1, [1, 2, 3], 0, false⟩,
   CacheOp.put "b" 0 ⟨1, 1, [4, 5, 6, 7], 0, false⟩,
   CacheOp.get "a" 0,
   CacheOp.put "c" 5 ⟨1, 1, [8, 9, 10, 11, 12], 5, false⟩,
   CacheOp.clear,
   CacheOp.put "a" 0 ⟨1, 1, [1, 2, 3], 0, false⟩,
   CacheOp.get "z" 0]

/-- Witness for the amended C4 at `N = 2`, `B = 10` over a mixed sequence of
puts, a hit, a miss and a clear. -/
theorem frameCache_invariants_hold_witness :
    (1 : Nat) ≤ 2 ∧ (∀ op ∈ w4ops, op.putSize ≤ 10) ∧
    (byteSum (runCacheOps (FrameCache.new 2 10, []) w4ops).1.entries ≤ 10 ∧
     (runCacheOps (FrameCache.new 2 10, []) w4ops).1.entries.length ≤ 2 ∧
     (runCacheOps (FrameCache.new 2 10, []) w4ops).1.current_bytes =
       byteSum (runCacheOps (FrameCache.new 2 10, []) w4ops).1.entries ∧
     (cacheKeys (runCacheOps (FrameCache.new 2 10, []) w4ops).1.entries).Nodup ∧
     List.Sublist (cacheKeys (runCacheOps (FrameCache.new 2 10, []) w4ops).1.entries)
       (runCacheOps (FrameCache.new 2 10, []) w4ops).2) :=
  ⟨by decide, by decide, frameCache_invariants_hold 2 10 (by decide) w4ops (by decide)⟩

/-! ## Decoder state machine (`src/ffmpeg/decoder.rs`)

FFmpeg effects (container seeks, packet reads, `receive_frame`, the scaler in
`convert_to_rgba`) are modelled as an explicit environment: the outcome every
such call would produce is a field of `SeekEnv` / `DecodeEnv`, and the
decoder body is the faithful pure control flow of the source over those
outcomes.  `fps` only enters `decode_frame` through
`(1000.0 / fps).max(1.0) as i64`, a per-decoder constant, modelled as the
field `frame_duration_ms`. -/

/-- Decoded pixel format (`PixelFormat` in `decoder.rs`). -/
inductive PixelFormat where
  | RGBA
  | RGB
  | YUV420P
  deriving Repr, DecidableEq

/-- `DecoderState`: the three-state machine. -/
inductive DecoderState where
  | Ready
  | EndOfStream
  | Error
  deriving Repr, DecidableEq

/-- A decoded `Frame`. -/
structure Frame where
  width : Nat
  height : Nat
  format : PixelFormat
  data : List Nat
  timestamp_ms : Int
  deriving Repr, DecidableEq

/-- `DecodeResult`: the four decode outcomes. -/
inductive DecodeResult where
  | Frame (f : Frame)
  | FrameSkipped
  | EndOfStream (f : Frame)
  | EndOfStreamEmpty
  deriving Repr, DecidableEq

/-- The `Decoder` state the control flow of `decode_frame` and `seek` reads
and writes.  `tb_num`/`tb_den` are the stream time base;
`frame_duration_ms = (1000.0 / fps).max(1.0) as i64`, fixed at open. -/
structure Decoder where
  frame_duration_ms : Int
  tb_num : Int
  tb_den : Int
  last_timestamp_ms : Int
  forward_threshold_ms : Int
  state : DecoderState
  last_decoded_frame : Option Frame
  eof_timestamp_ms : Option Int
  deriving Repr, DecidableEq

/-- Outcomes of the container-level `input_ctx.seek` call and its retry. -/
structure SeekEnv where
  ok1 : Bool
  ok2 : Bool
  deriving Repr, DecidableEq

/-- ms → stream time base, as computed in `seek` and for the PTS target:
`(t_ms * tb.den) / (tb.num * 1000)` in `i64` arithmetic (all quantities
non-negative in practice; the quotient is passed to the container). -/
def seekTargetPts (d : Decoder) (t_ms : Int) : Int :=
  (t_ms * d.tb_den) / (d.tb_num * 1000)

/-- `Decoder::seek`: convert ms to the stream time base and seek backward
(`..timestamp`); on success flush the codec, set `Ready` and clear the EOF
marker.  On failure flush and retry once: a successful retry sets `Ready`
(the source does *not* clear `eof_timestamp_ms` on this path); a second
failure sets `Error` and returns `Err`. -/
def Decoder.seek (d : Decoder) (t_ms : Int) (env : SeekEnv) :
    Except String Unit × Decoder :=
  if env.ok1 then
    (Except.ok (), { d with state := DecoderState.Ready, eof_timestamp_ms := none })
  else if env.ok2 then
    (Except.ok (), { d with state := DecoderState.Ready })
  else
    (Except.error "Seek failed after retry", { d with state := DecoderState.Error })

/-- A frame produced by `receive_frame`: its PTS, and the outcome
`convert_to_rgba` would produce for it (scaler + stride/bounds checks are
environment effects; the converted frame timestamp is overwritten by
`decode_frame` with the requested timestamp, as in the source). -/
structure RawFrame where
  pts : Option Int
  converted : Except String Frame

/-- A packet from `input_ctx.packets()`: its stream kind, whether
`send_packet` succeeds, the frames drained during the EAGAIN retry loop, and
the frames received after the send. -/
structure Packet where
  is_video : Bool
  send_ok : Bool
  frames_on_send_err : List RawFrame
  frames : List RawFrame

/-- Environment of one `decode_frame` call. -/
structure DecodeEnv where
  seek_env : SeekEnv
  buffered : List RawFrame
  packets : List Packet

/-- `is_pts_at_target`: `None` target accepts the first frame; otherwise
accept when `pts ≥ target − tolerance`, or when the PTS is absent. -/
def is_pts_at_target (target_info : Option (Int × Int)) (f : RawFrame) : Bool :=
  match target_info with
  | none => true
  | some (target_pts, tolerance_pts) =>
      match f.pts with
      | some pts => decide (pts ≥ target_pts - tolerance_pts)
      | none => true

/-- A `receive_frame` drain loop: take frames in order until one passes
`is_pts_at_target` (frames that fail the check are discarded). -/
def scanFrames (target_info : Option (Int × Int)) : List RawFrame → Option RawFrame
  | [] => none
  | f :: rest =>
      if is_pts_at_target target_info f then some f
      else scanFrames target_info rest

/-- Step 2 of `decode_frame`: iterate packets, skipping non-video ones,
sending each video packet (with the EAGAIN drain on a failed send), draining
received frames until one passes the PTS check; give up after the 3000-packet
safety cap (`packets_exhausted = false`, no frame).  Returns the accepted
frame if any, whether the packet iterator drained to the end, and the number
of packets read from the container. -/
def packetLoop (target_info : Option (Int × Int)) :
    List Packet → Int → Option RawFrame × Bool × Nat
  | [], _ => (none, true, 0)
  | p :: rest, packet_count =>
      if !p.is_video then
        let r := packetLoop target_info rest packet_count
        (r.1, r.2.1, r.2.2 + 1)
      else
        let fromErr :=
          if !p.send_ok then scanFrames target_info p.frames_on_send_err else none
        match fromErr with
        | some f => (some f, false, 1)
        | none =>
            match scanFrames target_info p.frames with
            | some f => (some f, false, 1)
            | none =>
                if packet_count + 1 > 3000 then (none, false, 1)
                else
                  let r := packetLoop target_info rest (packet_count + 1)
                  (r.1, r.2.1, r.2.2 + 1)

/-- The EOF-or-last-frame result used by the `Error`, memoised-EOF and
fresh-EOF paths: `EndOfStream(last_decoded_frame.clone())` when a last
successful frame is retained, `EndOfStreamEmpty` otherwise. -/
def eosOf (d : Decoder) : DecodeResult :=
  match d.last_decoded_frame with
  | some f => DecodeResult.EndOfStream f
  | none => DecodeResult.EndOfStreamEmpty

/-- Outcome of a `decode_frame` call: the `Result<DecodeResult, String>`, the
decoder state after the call, and the number of packets read from the
container. -/
structure DecodeOutcome where
  result : Except String DecodeResult
  decoder : Decoder
  packets_read : Nat
  deriving Repr

/-- The tail of `decode_frame` on an accepted raw frame: `convert_to_rgba`
(outcome from the environment; on success the converted frame takes the
requested timestamp), retain it as `last_decoded_frame`, set `Ready`. -/
def frameResult (d₃ : Decoder) (timestamp_ms : Int) (raw : RawFrame) :
    DecodeOutcome :=
  match raw.converted with
  | Except.error e => { result := Except.error e, decoder := d₃, packets_read := 0 }
  | Except.ok f =>
      let frame := { f with timestamp_ms := timestamp_ms }
      { result := Except.ok (DecodeResult.Frame frame),
        decoder := { d₃ with
                       last_decoded_frame := some frame,
                       state := DecoderState.Ready },
        packets_read := 0 }

/-- The part of `decode_frame` after the (possible) seek: update
`last_timestamp_ms`, build the PTS target (`None` on the immediate path),
drain buffered frames, then read packets; a drained packet iterator sets
`EndOfStream` and memoises `eof_timestamp_ms := t_req`; a decode failure that
is not EOF yields `FrameSkipped`. -/
def afterSeek (d₂ : Decoder) (is_immediate : Bool) (timestamp_ms : Int)
    (env : DecodeEnv) : DecodeOutcome :=
  let d₃ := { d₂ with last_timestamp_ms := timestamp_ms }
  let target_info : Option (Int × Int) :=
    if is_immediate then none
    else some (seekTargetPts d₃ timestamp_ms,
      (d₃.frame_duration_ms * d₃.tb_den) / (d₃.tb_num * 1000))
  match scanFrames target_info env.buffered with
  | some raw => frameResult d₃ timestamp_ms raw
  | none =>
      let r := packetLoop target_info env.packets 0
      match r.1 with
      | some raw => { frameResult d₃ timestamp_ms raw with packets_read := r.2.2 }
      | none =>
          if r.2.1 then
            let d₄ := { d₃ with
                          state := DecoderState.EndOfStream,
                          eof_timestamp_ms := some timestamp_ms }
            { result := Except.ok (eosOf d₄), decoder := d₄,
              packets_read := r.2.2 }
          else
            { result := Except.ok DecodeResult.FrameSkipped, decoder := d₃,
              packets_read := r.2.2 }

/-- The body of `decode_frame` after the `Error`-state and memoised-EOF early
returns: access-path decision, optional seek (whose failure yields
`FrameSkipped` or `EndOfStreamEmpty` without reading packets), then
`afterSeek`. -/
def decodeFrameBody (d : Decoder) (timestamp_ms : Int) (env : DecodeEnv) :
    DecodeOutcome :=
  let is_ahead := d.state == DecoderState.Ready
    && decide (timestamp_ms ≥ d.last_timestamp_ms)
  let gap_ms := timestamp_ms - d.last_timestamp_ms
  let is_immediate := is_ahead && decide (gap_ms ≤ d.frame_duration_ms * 2)
  let is_forward := is_ahead && !is_immediate
    && decide (gap_ms ≤ d.forward_threshold_ms)
  let needs_seek := !is_immediate && !is_forward
  let seekStep : Except String Unit × Decoder :=
    if needs_seek then d.seek timestamp_ms env.seek_env else (Except.ok (), d)
  match seekStep.1 with
  | Except.error _ =>
      { result := Except.ok (match seekStep.2.last_decoded_frame with
          | some _ => DecodeResult.FrameSkipped
          | none => DecodeResult.EndOfStreamEmpty)
        decoder := seekStep.2, packets_read := 0 }
  | Except.ok _ => afterSeek seekStep.2 is_immediate timestamp_ms env

/-- `Decoder::decode_frame`: `Error`-state early return, memoised-EOF early
return (with marker clearing on a backward request), then the decode body. -/
def Decoder.decode_frame (d : Decoder) (timestamp_ms : Int) (env : DecodeEnv) :
    DecodeOutcome :=
  if d.state == DecoderState.Error then
    { result := Except.ok (eosOf d), decoder := d, packets_read := 0 }
  else
    match d.eof_timestamp_ms with
    | some eof_ts =>
        if timestamp_ms ≥ eof_ts then
          { result := Except.ok (eosOf d), decoder := d, packets_read := 0 }
        else
          decodeFrameBody { d with eof_timestamp_ms := none } timestamp_ms env
    | none => decodeFrameBody d timestamp_ms env

/-! ### C5: the seek state machine -/

/-- Concrete decoder in `EndOfStream` state with a memoised EOF at 5 ms, for
the C5 counterexample. -/
def seekCexDecoder : Decoder :=
  { frame_duration_ms := 33, tb_num := 1, tb_den := 1000,
    last_timestamp_ms := 0, forward_threshold_ms := 100,
    state := DecoderState.EndOfStream, last_decoded_frame := none,
    eof_timestamp_ms := some 5 }

/-- **C5 counterexample.** A decoder whose first seek attempt fails but whose
retry succeeds ends with `state = Ready` and `Ok`, yet `eof_timestamp_ms` is
*not* cleared (it stays `some 5`): the claim that a successful retry clears
the memoised EOF marker fails. -/
theorem decoder_seek_retry_keeps_eof_marker :
    ((seekCexDecoder.seek 0 { ok1 := false, ok2 := true }).1 = Except.ok ()) ∧
    ((seekCexDecoder.seek 0 { ok1 := false, ok2 := true }).2.state =
      DecoderState.Ready) ∧
    ((seekCexDecoder.seek 0 { ok1 := false, ok2 := true }).2.eof_timestamp_ms =
      some 5) ∧
    some (5 : Int) ≠ none :=
  ⟨rfl, rfl, rfl, by simp⟩

/-- **C5** (amended).  `seek(t_ms)` converts ms to the stream timebase and
issues a backward-biased container seek; it succeeds exactly when the first
attempt or the single retry after a flush succeeds, and then the state is
reset to `Ready`; `eof_timestamp_ms` is cleared on a first-attempt success
but left unchanged by the retry path; if both attempts fail the decoder
transitions to `Error` and `seek` returns `Err`.  `last_decoded_frame` is
never touched. -/
theorem decoder_seek_state_machine (d : Decoder) (t_ms : Int) (env : SeekEnv) :
    ((d.seek t_ms env).1.isOk = (env.ok1 || env.ok2)) ∧
    ((env.ok1 || env.ok2) = true →
      (d.seek t_ms env).2.state = DecoderState.Ready) ∧
    ((env.ok1 || env.ok2) = false →
      (d.seek t_ms env).2.state = DecoderState.Error) ∧
    (env.ok1 = true → (d.seek t_ms env).2.eof_timestamp_ms = none) ∧
    (env.ok1 = false →
      (d.seek t_ms env).2.eof_timestamp_ms = d.eof_timestamp_ms) ∧
    (d.seek t_ms env).2.last_decoded_frame = d.last_decoded_frame := by
  cases env with
  | mk o1 o2 =>
      cases o1 <;> cases o2 <;>
        simp [Decoder.seek, Except.isOk, Except.toBool]

/-- Concrete decoder in `Error` state with a memoised EOF at 9 ms, for the C5
witness. -/
def seekWitDecoder : Decoder :=
  { frame_duration_ms := 33, tb_num := 1, tb_den := 1000,
    last_timestamp_ms := 0, forward_threshold_ms := 100,
    state := DecoderState.Error, last_decoded_frame := none,
    eof_timestamp_ms := some 9 }

/-- Witness for the amended C5 on the retry-success path. -/
theorem decoder_seek_state_machine_witness :
    ((seekWitDecoder.seek 7 { ok1 := false, ok2 := true }).1.isOk =
      (false || true)) ∧
    ((false || true) = true →
      (seekWitDecoder.seek 7 { ok1 := false, ok2 := true }).2.state =
        DecoderState.Ready) ∧
    ((false || true) = false →
      (seekWitDecoder.seek 7 { ok1 := false, ok2 := true }).2.state =
        DecoderState.Error) ∧
    (false = true →
      (seekWitDecoder.seek 7 { ok1 := false, ok2 := true }).2.eof_timestamp_ms =
        none) ∧
    (false = false →
      (seekWitDecoder.seek 7 { ok1 := false, ok2 := true }).2.eof_timestamp_ms =
        seekWitDecoder.eof_timestamp_ms) ∧
    (seekWitDecoder.seek 7 { ok1 := false, ok2 := true }).2.last_decoded_frame =
      seekWitDecoder.last_decoded_frame :=
  decoder_seek_state_machine seekWitDecoder 7 { ok1 := false, ok2 := true }

/-! ### C3: EOF memoisation -/

theorem frameResult_eof (d₃ : Decoder) (t : Int) (raw : RawFrame) :
    (frameResult d₃ t raw).decoder.eof_timestamp_ms = d₃.eof_timestamp_ms := by
  cases hc : raw.converted <;> simp [frameResult, hc]

theorem afterSeek_eof (d₂ : Decoder) (imm : Bool) (t : Int) (env : DecodeEnv) :
    (afterSeek d₂ imm t env).decoder.eof_timestamp_ms = d₂.eof_timestamp_ms ∨
    (afterSeek d₂ imm t env).decoder.eof_timestamp_ms = some t := by
  unfold afterSeek
  simp only
  cases hscan : scanFrames (if imm = true then none
      else some (seekTargetPts { d₂ with last_timestamp_ms := t } t,
        ({ d₂ with last_timestamp_ms := t }.frame_duration_ms *
            { d₂ with last_timestamp_ms := t }.tb_den) /
          ({ d₂ with last_timestamp_ms := t }.tb_num * 1000))) env.buffered with
  | some raw =>
      left
      simp [hscan, frameResult_eof]
  | none =>
      simp only [hscan]
      cases h1 : (packetLoop (if imm = true then none
          else some (seekTargetPts { d₂ with last_timestamp_ms := t } t,
            ({ d₂ with last_timestamp_ms := t }.frame_duration_ms *
                { d₂ with last_timestamp_ms := t }.tb_den) /
              ({ d₂ with last_timestamp_ms := t }.tb_num * 1000)))
          env.packets 0).1 with
      | some raw =>
          left
          simp [h1, frameResult_eof]
      | none =>
          by_cases h2 : (packetLoop (if imm = true then none
              else some (seekTargetPts { d₂ with last_timestamp_ms := t } t,
                ({ d₂ with last_timestamp_ms := t }.frame_duration_ms *
                    { d₂ with last_timestamp_ms := t }.tb_den) /
                  ({ d₂ with last_timestamp_ms := t }.tb_num * 1000)))
              env.packets 0).2.1 = true
          · right; simp [h1, h2]
          · left; simp [h1, h2]

theorem decodeFrameBody_eof (d : Decoder) (t : Int) (env : DecodeEnv)
    (h : d.eof_timestamp_ms = none) :
    (decodeFrameBody d t env).decoder.eof_timestamp_ms = none ∨
    (decodeFrameBody d t env).decoder.eof_timestamp_ms = some t := by
  have hseek2 : ∀ e : SeekEnv, (d.seek t e).2.eof_timestamp_ms = none := by
    intro e
    cases e with
    | mk o1 o2 => cases o1 <;> cases o2 <;> simp [Decoder.seek, h]
  unfold decodeFrameBody
  simp only
  by_cases hns : (!(d.state == DecoderState.Ready
      && decide (t ≥ d.last_timestamp_ms)
      && decide (t - d.last_timestamp_ms ≤ d.frame_duration_ms * 2))
    && !(d.state == DecoderState.Ready && decide (t ≥ d.last_timestamp_ms)
      && !(d.state == DecoderState.Ready && decide (t ≥ d.last_timestamp_ms)
        && decide (t - d.last_timestamp_ms ≤ d.frame_duration_ms * 2))
      && decide (t - d.last_timestamp_ms ≤ d.forward_threshold_ms))) = true
  · rw [if_pos hns]
    cases hres : (d.seek t env.seek_env).1 with
    | error e =>
        simp only [hres]
        left
        exact hseek2 env.seek_env
    | ok u =>
        simp only [hres]
        have hA := afterSeek_eof (d.seek t env.seek_env).2
          (d.state == DecoderState.Ready && decide (t ≥ d.last_timestamp_ms)
            && decide (t - d.last_timestamp_ms ≤ d.frame_duration_ms * 2)) t env
        rw [hseek2 env.seek_env] at hA
        exact hA
  · rw [if_neg hns]
    simp only
    have hA := afterSeek_eof d
      (d.state == DecoderState.Ready && decide (t ≥ d.last_timestamp_ms)
        && decide (t - d.last_timestamp_ms ≤ d.frame_duration_ms * 2)) t env
    rw [h] at hA
    exact hA

/-- **C3 counterexample.** A decoder in the `Error` state with
`eof_timestamp_ms = some 5`: a call at `t = 3 < 5` returns via the
`Error`-state early return, so the memoised EOF marker is *not* cleared — the
claim fails for decoders in the `Error` state (reachable via a `seek` that
fails twice while the EOF marker is set). -/
theorem decoder_eof_error_state_counterexample :
    seekWitDecoder.eof_timestamp_ms = some 9 ∧
    ((3 : Int) < 9) ∧
    (seekWitDecoder.decode_frame 3
      { seek_env := { ok1 := true, ok2 := true }, buffered := [],
        packets := [] }).decoder.eof_timestamp_ms = some 9 :=
  ⟨rfl, by norm_num, rfl⟩

/-- **C3** (amended).  For every decoder with `eof_timestamp_ms = some e`:
a call `decode_frame(t)` with `t ≥ e` immediately returns
`EndOfStream(last_decoded_frame)` when a last decoded frame exists and
`EndOfStreamEmpty` otherwise (`eosOf`), leaves the decoder unchanged, and
reads zero packets from the container; a call with `t < e` on a decoder *not
in the `Error` state* clears the memoised marker, so that after the call the
marker is either unset or freshly re-memoised at `t` (EOF is re-detected).
In the `Error` state the early return leaves the marker untouched. -/
theorem decoder_eof_memoisation (d : Decoder) (e : Int)
    (heof : d.eof_timestamp_ms = some e) (t : Int) (env : DecodeEnv) :
    (t ≥ e →
      (d.decode_frame t env).result = Except.ok (eosOf d) ∧
      (d.decode_frame t env).decoder = d ∧
      (d.decode_frame t env).packets_read = 0) ∧
    (t < e → d.state ≠ DecoderState.Error →
      (d.decode_frame t env).decoder.eof_timestamp_ms = none ∨
      (d.decode_frame t env).decoder.eof_timestamp_ms = some t) := by
  constructor
  · intro hge
    by_cases hs : d.state == DecoderState.Error
    · simp [Decoder.decode_frame, hs]
    · simp [Decoder.decode_frame, hs, heof, hge]
  · intro hlt hnerr
    have hs : (d.state == DecoderState.Error) = false := by
      simp [hnerr]
    have hnge : ¬ (t ≥ e) := by omega
    simp only [Decoder.decode_frame, hs, Bool.false_eq_true, if_false, heof,
      if_neg hnge]
    exact decodeFrameBody_eof { d with eof_timestamp_ms := none } t env rfl

/-- Concrete decoder in `EndOfStream` state with a retained last frame, for
the C3 witness. -/
def eofWitDecoder : Decoder :=
  { frame_duration_ms := 33, tb_num := 1, tb_den := 1000,
    last_timestamp_ms := 40, forward_threshold_ms := 100,
    state := DecoderState.EndOfStream,
    last_decoded_frame := some ⟨2, 2, PixelFormat.RGBA, [7], 40⟩,
    eof_timestamp_ms := some 5 }

/-- Witness for the amended C3 at `e = 5`, `t = 7 ≥ e`. -/
theorem decoder_eof_memoisation_witness :
    eofWitDecoder.eof_timestamp_ms = some 5 ∧
    (((7 : Int) ≥ 5 →
      (eofWitDecoder.decode_frame 7
        { seek_env := { ok1 := true, ok2 := true }, buffered := [],
          packets := [] }).result = Except.ok (eosOf eofWitDecoder) ∧
      (eofWitDecoder.decode_frame 7
        { seek_env := { ok1 := true, ok2 := true }, buffered := [],
          packets := [] }).decoder = eofWitDecoder ∧
      (eofWitDecoder.decode_frame 7
        { seek_env := { ok1 := true, ok2 := true }, buffered := [],
          packets := [] }).packets_read = 0) ∧
    ((7 : Int) < 5 → eofWitDecoder.state ≠ DecoderState.Error →
      (eofWitDecoder.decode_frame 7
        { seek_env := { ok1 := true, ok2 := true }, buffered := [],
          packets := [] }).decoder.eof_timestamp_ms = none ∨
      (eofWitDecoder.decode_frame 7
        { seek_env := { ok1 := true, ok2 := true }, buffered := [],
          packets := [] }).decoder.eof_timestamp_ms = some 7)) :=
  ⟨rfl, decoder_eof_memoisation eofWitDecoder 5 rfl 7
    { seek_env := { ok1 := true, ok2 := true }, buffered := [], packets := [] }⟩

/-! ## C ABI render entry point (`src/ffi/renderer.rs`)

`renderer_render_frame` takes raw pointers; nullness of each pointer and the
outcomes of `try_lock` and of the inner `render_frame` call are environment
inputs.  Out-parameter writes are modelled as `Option`-valued fields (`none`
= not written); the data pointer written is `none` for the null sentinel and
`some bytes` for a heap buffer. -/

/-- `ErrorCode` from `src/ffi/types.rs` as its integer status code. -/
inductive ErrorCode where
  | Success
  | NullPointer
  | InvalidParam
  | Ffmpeg
  | Io
  | Unknown
  deriving Repr, DecidableEq

/-- The integer value of each status code. -/
def ErrorCode.code : ErrorCode → Int
  | ErrorCode.Success => 0
  | ErrorCode.NullPointer => 1
  | ErrorCode.InvalidParam => 2
  | ErrorCode.Ffmpeg => 3
  | ErrorCode.Io => 4
  | ErrorCode.Unknown => 99

/-- What `renderer_render_frame` returns and writes. -/
structure FfiRenderOut where
  status : Int
  out_width : Option Nat
  out_height : Option Nat
  out_data : Option (Option (List Nat))
  out_data_size : Option Nat
  deriving Repr, DecidableEq

/-- `renderer_render_frame`: null checks, `try_lock` (contention writes the
zero-sized skip-frame sentinel and returns `Success`), then `render_frame`
(`Ok` writes the frame, `Err` writes the same sentinel and still returns
`Success`). -/
def renderer_render_frame (renderer_null w_null h_null data_null size_null : Bool)
    (try_lock_ok : Bool) (render_result : Except String RenderedFrame) :
    FfiRenderOut :=
  if renderer_null || w_null || h_null || data_null || size_null then
    { status := ErrorCode.NullPointer.code, out_width := none, out_height := none,
      out_data := none, out_data_size := none }
  else if !try_lock_ok then
    { status := ErrorCode.Success.code, out_width := some 0, out_height := some 0,
      out_data := some none, out_data_size := some 0 }
  else
    match render_result with
    | Except.ok frame =>
        { status := ErrorCode.Success.code, out_width := some frame.width,
          out_height := some frame.height, out_data := some (some frame.data),
          out_data_size := some frame.data.length }
    | Except.error _ =>
        { status := ErrorCode.Success.code, out_width := some 0,
          out_height := some 0, out_data := some none, out_data_size := some 0 }

/-- **C9.** With all pointers non-null, `renderer_render_frame` always
returns `Success` (0); both mutex contention and an internal `render_frame`
error are reported as the zero-sized sentinel (width 0, height 0, null data,
size 0), not as a non-zero status. -/
theorem renderer_render_frame_always_success
    (try_lock_ok : Bool) (render_result : Except String RenderedFrame) :
    (renderer_render_frame false false false false false
      try_lock_ok render_result).status = 0 ∧
    (try_lock_ok = false →
      renderer_render_frame false false false false false
        try_lock_ok render_result =
      { status := 0, out_width := some 0, out_height := some 0,
        out_data := some none, out_data_size := some 0 }) ∧
    (∀ msg, render_result = Except.error msg →
      renderer_render_frame false false false false false
        try_lock_ok render_result =
      { status := 0, out_width := some 0, out_height := some 0,
        out_data := some none, out_data_size := some 0 }) := by
  refine ⟨?_, ?_, ?_⟩
  · cases try_lock_ok <;> cases render_result <;>
      simp [renderer_render_frame, ErrorCode.code]
  · intro h
    subst h
    simp [renderer_render_frame, ErrorCode.code]
  · intro msg h
    subst h
    cases try_lock_ok <;> simp [renderer_render_frame, ErrorCode.code]

/-- Witness for C9 on a failing `render_frame` with the lock held. -/
theorem renderer_render_frame_always_success_witness :
    ((renderer_render_frame false false false false false
      true (Except.error "Failed to lock timeline")).status = 0 ∧
    (true = false →
      renderer_render_frame false false false false false
        true (Except.error "Failed to lock timeline") =
      { status := 0, out_width := some 0, out_height := some 0,
        out_data := some none, out_data_size := some 0 }) ∧
    (∀ msg, (Except.error "Failed to lock timeline" :
        Except String RenderedFrame) = Except.error msg →
      renderer_render_frame false false false false false
        true (Except.error "Failed to lock timeline") =
      { status := 0, out_width := some 0, out_height := some 0,
        out_data := some none, out_data_size := some 0 })) :=
  renderer_render_frame_always_success true (Except.error "Failed to lock timeline")

/-! ## Subtitle colour conversion (`src/subtitle/overlay.rs`)

Byte buffers are `List Nat` (each element a byte value), reads are `getD`
(never out of range on the paths exercised: the source indexes panic-free
after its length checks), `i32` arithmetic is `Int`, and the Rust arithmetic
shift `>> 8` on `i32` is floor division, i.e. `Int` division by 256. -/

/-- Rust `x.clamp(lo, hi)`. -/
def clampI (lo hi x : Int) : Int := min hi (max lo x)

/-- `yuv420p_to_rgba`: full-range integer BT.601 inverse; short data yields a
black RGBA frame; every written alpha byte is 255. -/
def yuv420p_to_rgba (yuv_data : List Nat) (width height : Nat) : List Nat :=
  let w := width
  let h := height
  let y_size := w * h
  let uv_size := (w / 2) * (h / 2)
  if yuv_data.length < y_size + uv_size * 2 then
    List.replicate (w * h * 4) 0
  else
    (List.range h).foldl (fun acc row =>
      (List.range w).foldl (fun acc col =>
        let y_val : Int := (yuv_data.getD (row * w + col) 0 : Int)
        let u_val : Int :=
          (yuv_data.getD (y_size + (row / 2) * (w / 2) + col / 2) 0 : Int) - 128
        let v_val : Int :=
          (yuv_data.getD (y_size + uv_size + (row / 2) * (w / 2) + col / 2) 0 : Int)
            - 128
        let r := clampI 0 255 (y_val + (359 * v_val) / 256)
        let g := clampI 0 255 (y_val - (88 * u_val + 183 * v_val) / 256)
        let b := clampI 0 255 (y_val + (454 * u_val) / 256)
        let idx := (row * w + col) * 4
        (((acc.set idx r.toNat).set (idx + 1) g.toNat).set
          (idx + 2) b.toNat).set (idx + 3) 255)
        acc)
      (List.replicate (w * h * 4) 0)

/-- The even indices `0, 2, 4, … < n` of `(0..n).step_by(2)`. -/
def evenRange (n : Nat) : List Nat := (List.range ((n + 1) / 2)).map (· * 2)

/-- `rgba_to_yuv420p`: studio-swing integer BT.601 forward conversion with
2×2 chroma subsampling (block averages, edge-clamped indices); `Y` clamped to
`[16, 235]`, chroma to `[0, 255]`. -/
def rgba_to_yuv420p (rgba : List Nat) (width height : Nat) : List Nat :=
  let w := width
  let h := height
  let y_size := w * h
  let uv_size := (w / 2) * (h / 2)
  let yuv0 := List.replicate (y_size + uv_size * 2) 0
  let yuvY := (List.range h).foldl (fun acc row =>
      (List.range w).foldl (fun acc col =>
        let idx := (row * w + col) * 4
        let r : Int := (rgba.getD idx 0 : Int)
        let g : Int := (rgba.getD (idx + 1) 0 : Int)
        let b : Int := (rgba.getD (idx + 2) 0 : Int)
        let y := (66 * r + 129 * g + 25 * b + 128) / 256 + 16
        acc.set (row * w + col) (clampI 16 235 y).toNat)
        acc)
    yuv0
  let u_offset := y_size
  let v_offset := y_size + uv_size
  (evenRange h).foldl (fun acc row =>
    (evenRange w).foldl (fun acc col =>
      let sums := (List.range 2).foldl (fun s dy =>
          (List.range 2).foldl (fun s dx =>
            let py := min (row + dy) (h - 1)
            let px := min (col + dx) (w - 1)
            let idx := (py * w + px) * 4
            (s.1 + (rgba.getD idx 0 : Int),
             s.2.1 + (rgba.getD (idx + 1) 0 : Int),
             s.2.2 + (rgba.getD (idx + 2) 0 : Int)))
          s)
        ((0 : Int), (0 : Int), (0 : Int))
      let r := sums.1 / 4
      let g := sums.2.1 / 4
      let b := sums.2.2 / 4
      let uv_idx := (row / 2) * (w / 2) + col / 2
      let u := (-38 * r - 74 * g + 112 * b + 128) / 256 + 128
      let v := (112 * r - 94 * g - 18 * b + 128) / 256 + 128
      (acc.set (u_offset + uv_idx) (clampI 0 255 u).toNat).set
        (v_offset + uv_idx) (clampI 0 255 v).toNat)
      acc)
    yuvY

/-- A constant-colour 2×2 RGBA block. -/
def constBlock (r g b a : Nat) : List Nat :=
  [r, g, b, a, r, g, b, a, r, g, b, a, r, g, b, a]

/-- The stored luma byte of a constant colour (studio-swing BT.601). -/
def yExpr (r g b : Int) : Int :=
  clampI 16 235 ((66 * r + 129 * g + 25 * b + 128) / 256 + 16)

/-- The stored U byte of a constant colour. -/
def uExpr (r g b : Int) : Int :=
  clampI 0 255 ((-38 * r - 74 * g + 112 * b + 128) / 256 + 128)

/-- The stored V byte of a constant colour. -/
def vExpr (r g b : Int) : Int :=
  clampI 0 255 ((112 * r - 94 * g - 18 * b + 128) / 256 + 128)

/-- The red byte after the round trip on a constant colour. -/
def rOut (r g b : Int) : Int :=
  clampI 0 255 (yExpr r g b + (359 * (vExpr r g b - 128)) / 256)

/-- The green byte after the round trip on a constant colour. -/
def gOut (r g b : Int) : Int :=
  clampI 0 255 (yExpr r g b -
    (88 * (uExpr r g b - 128) + 183 * (vExpr r g b - 128)) / 256)

/-- The blue byte after the round trip on a constant colour. -/
def bOut (r g b : Int) : Int :=
  clampI 0 255 (yExpr r g b + (454 * (uExpr r g b - 128)) / 256)

set_option maxHeartbeats 2000000 in
/-- Evaluating the two conversions on a constant-colour 2×2 block: every
pixel of the result is `(rOut, gOut, bOut, 255)`. -/
theorem roundtrip_eval (r g b a : Nat) :
    yuv420p_to_rgba (rgba_to_yuv420p (constBlock r g b a) 2 2) 2 2 =
      [(rOut r g b).toNat, (gOut r g b).toNat, (bOut r g b).toNat, 255,
       (rOut r g b).toNat, (gOut r g b).toNat, (bOut r g b).toNat, 255,
       (rOut r g b).toNat, (gOut r g b).toNat, (bOut r g b).toNat, 255,
       (rOut r g b).toNat, (gOut r g b).toNat, (bOut r g b).toNat, 255] := by
  have havgR : ((0 : Int) + (r : Nat) + r + r + r) / 4 = (r : Int) := by omega
  have havgG : ((0 : Int) + (g : Nat) + g + g + g) / 4 = (g : Int) := by omega
  have havgB : ((0 : Int) + (b : Nat) + b + b + b) / 4 = (b : Int) := by omega
  have hyc : ((yExpr r g b).toNat : Int) = yExpr r g b :=
    Int.toNat_of_nonneg (by unfold yExpr clampI; omega)
  have huc : ((uExpr r g b).toNat : Int) = uExpr r g b :=
    Int.toNat_of_nonneg (by unfold uExpr clampI; omega)
  have hvc : ((vExpr r g b).toNat : Int) = vExpr r g b :=
    Int.toNat_of_nonneg (by unfold vExpr clampI; omega)
  have hfwd : rgba_to_yuv420p (constBlock r g b a) 2 2 =
      [(yExpr r g b).toNat, (yExpr r g b).toNat, (yExpr r g b).toNat,
       (yExpr r g b).toNat, (uExpr r g b).toNat, (vExpr r g b).toNat] := by
    show [(clampI 16 235 ((66 * (r:Int) + 129 * (g:Int) + 25 * (b:Int) + 128)
            / 256 + 16)).toNat,
          (clampI 16 235 ((66 * (r:Int) + 129 * (g:Int) + 25 * (b:Int) + 128)
            / 256 + 16)).toNat,
          (clampI 16 235 ((66 * (r:Int) + 129 * (g:Int) + 25 * (b:Int) + 128)
            / 256 + 16)).toNat,
          (clampI 16 235 ((66 * (r:Int) + 129 * (g:Int) + 25 * (b:Int) + 128)
            / 256 + 16)).toNat,
          (clampI 0 255 ((-38 * ((0 + (r:Int) + r + r + r) / 4)
            - 74 * ((0 + (g:Int) + g + g + g) / 4)
            + 112 * ((0 + (b:Int) + b + b + b) / 4) + 128) / 256 + 128)).toNat,
          (clampI 0 255 ((112 * ((0 + (r:Int) + r + r + r) / 4)
            - 94 * ((0 + (g:Int) + g + g + g) / 4)
            - 18 * ((0 + (b:Int) + b + b + b) / 4) + 128) / 256 + 128)).toNat] =
        [(yExpr r g b).toNat, (yExpr r g b).toNat, (yExpr r g b).toNat,
         (yExpr r g b).toNat, (uExpr r g b).toNat, (vExpr r g b).toNat]
    rw [havgR, havgG, havgB]
    rfl
  rw [hfwd]
  show [(clampI 0 255 (((yExpr r g b).toNat : Int)
          + (359 * (((vExpr r g b).toNat : Int) - 128)) / 256)).toNat,
        (clampI 0 255 (((yExpr r g b).toNat : Int)
          - (88 * (((uExpr r g b).toNat : Int) - 128)
            + 183 * (((vExpr r g b).toNat : Int) - 128)) / 256)).toNat,
        (clampI 0 255 (((yExpr r g b).toNat : Int)
          + (454 * (((uExpr r g b).toNat : Int) - 128)) / 256)).toNat, 255,
        (clampI 0 255 (((yExpr r g b).toNat : Int)
          + (359 * (((vExpr r g b).toNat : Int) - 128)) / 256)).toNat,
        (clampI 0 255 (((yExpr r g b).toNat : Int)
          - (88 * (((uExpr r g b).toNat : Int) - 128)
            + 183 * (((vExpr r g b).toNat : Int) - 128)) / 256)).toNat,
        (clampI 0 255 (((yExpr r g b).toNat : Int)
          + (454 * (((uExpr r g b).toNat : Int) - 128)) / 256)).toNat, 255,
        (clampI 0 255 (((yExpr r g b).toNat : Int)
          + (359 * (((vExpr r g b).toNat : Int) - 128)) / 256)).toNat,
        (clampI 0 255 (((yExpr r g b).toNat : Int)
          - (88 * (((uExpr r g b).toNat : Int) - 128)
            + 183 * (((vExpr r g b).toNat : Int) - 128)) / 256)).toNat,
        (clampI 0 255 (((yExpr r g b).toNat : Int)
          + (454 * (((uExpr r g b).toNat : Int) - 128)) / 256)).toNat, 255,
        (clampI 0 255 (((yExpr r g b).toNat : Int)
          + (359 * (((vExpr r g b).toNat : Int) - 128)) / 256)).toNat,
        (clampI 0 255 (((yExpr r g b).toNat : Int)
          - (88 * (((uExpr r g b).toNat : Int) - 128)
            + 183 * (((vExpr r g b).toNat : Int) - 128)) / 256)).toNat,
        (clampI 0 255 (((yExpr r g b).toNat : Int)
          + (454 * (((uExpr r g b).toNat : Int) - 128)) / 256)).toNat, 255] = _
  rw [hyc, huc, hvc]
  rfl

set_option maxHeartbeats 4000000 in
/-- Red after the round trip deviates by at most 21. -/
theorem rOut_bound (r g b : Int) (hr : 0 ≤ r ∧ r ≤ 255) (hg : 0 ≤ g ∧ g ≤ 255)
    (hb : 0 ≤ b ∧ b ≤ 255) : (rOut r g b - r).natAbs ≤ 21 := by
  unfold rOut yExpr vExpr clampI
  have h1 : min (235 : Int) (max 16 ((66*r + 129*g + 25*b + 128) / 256 + 16)) =
      (66*r + 129*g + 25*b + 128) / 256 + 16 := by omega
  have h2 : min (255 : Int) (max 0 ((112*r - 94*g - 18*b + 128) / 256 + 128)) =
      (112*r - 94*g - 18*b + 128) / 256 + 128 := by omega
  rw [h1, h2]
  have key : ∀ i : Int, 256*i ≤ 112*r - 94*g - 18*b + 128 →
      112*r - 94*g - 18*b + 128 < 256*i + 256 →
      (min 255 (max 0 ((66*r + 129*g + 25*b + 128) / 256 + 16 +
        359 * (i + 128 - 128) / 256)) - r).natAbs ≤ 21 := by
    intro i hA hB
    have hi1 : -112 ≤ i := by omega
    have hi2 : i ≤ 112 := by omega
    interval_cases i <;> omega
  exact key ((112*r - 94*g - 18*b + 128) / 256) (by omega) (by omega)

set_option maxHeartbeats 2000000 in
/-- Green after the round trip deviates by at most 21. -/
theorem gOut_bound (r g b : Int) (hr : 0 ≤ r ∧ r ≤ 255) (hg : 0 ≤ g ∧ g ≤ 255)
    (hb : 0 ≤ b ∧ b ≤ 255) : (gOut r g b - g).natAbs ≤ 21 := by
  unfold gOut yExpr uExpr vExpr clampI
  have h1 : min (235 : Int) (max 16 ((66*r + 129*g + 25*b + 128) / 256 + 16)) =
      (66*r + 129*g + 25*b + 128) / 256 + 16 := by omega
  have h2 : min (255 : Int) (max 0 ((-38*r - 74*g + 112*b + 128) / 256 + 128)) =
      (-38*r - 74*g + 112*b + 128) / 256 + 128 := by omega
  have h3 : min (255 : Int) (max 0 ((112*r - 94*g - 18*b + 128) / 256 + 128)) =
      (112*r - 94*g - 18*b + 128) / 256 + 128 := by omega
  rw [h1, h2, h3]
  omega

set_option maxHeartbeats 4000000 in
/-- Blue after the round trip deviates by at most 21. -/
theorem bOut_bound (r g b : Int) (hr : 0 ≤ r ∧ r ≤ 255) (hg : 0 ≤ g ∧ g ≤ 255)
    (hb : 0 ≤ b ∧ b ≤ 255) : (bOut r g b - b).natAbs ≤ 21 := by
  unfold bOut yExpr uExpr clampI
  have h1 : min (235 : Int) (max 16 ((66*r + 129*g + 25*b + 128) / 256 + 16)) =
      (66*r + 129*g + 25*b + 128) / 256 + 16 := by omega
  have h2 : min (255 : Int) (max 0 ((-38*r - 74*g + 112*b + 128) / 256 + 128)) =
      (-38*r - 74*g + 112*b + 128) / 256 + 128 := by omega
  rw [h1, h2]
  have key : ∀ i : Int, 256*i ≤ -38*r - 74*g + 112*b + 128 →
      -38*r - 74*g + 112*b + 128 < 256*i + 256 →
      (min 255 (max 0 ((66*r + 129*g + 25*b + 128) / 256 + 16 +
        454 * (i + 128 - 128) / 256)) - b).natAbs ≤ 21 := by
    intro i hA hB
    have hi1 : -112 ≤ i := by omega
    have hi2 : i ≤ 112 := by omega
    interval_cases i <;> omega
  exact key ((-38*r - 74*g + 112*b + 128) / 256) (by omega) (by omega)

/-- **C7 counterexample.** White `(255,255,255)` round-trips to
`(235,235,235)` — a per-channel deviation of 20 > 3 (the forward conversion
is studio-swing, the inverse full-range) — and `(43,255,255)` has a blue
deviation of 21, so 21 is attained. -/
theorem rgba_yuv_roundtrip_exceeds_3 :
    (((yuv420p_to_rgba (rgba_to_yuv420p (constBlock 255 255 255 0) 2 2) 2 2).getD
        0 0 : Int) - 255).natAbs = 20 ∧
    ¬ ((((yuv420p_to_rgba (rgba_to_yuv420p (constBlock 255 255 255 0) 2 2)
        2 2).getD 0 0 : Int) - 255).natAbs ≤ 3) ∧
    (((yuv420p_to_rgba (rgba_to_yuv420p (constBlock 43 255 255 0) 2 2) 2 2).getD
        2 0 : Int) - 255).natAbs = 21 := by
  refine ⟨by decide, by decide, by decide⟩

set_option maxHeartbeats 1000000 in
/-- **C7** (amended).  For every constant-colour 2×2 RGBA block (every RGB
value 0..255, any alpha), converting with `rgba_to_yuv420p` and back with
`yuv420p_to_rgba` yields, at every pixel, R, G and B values that each differ
from the original by at most 21 (the studio-swing forward conversion against
the full-range inverse compresses the extremes; 21 is attained). -/
theorem rgba_yuv_roundtrip_within_21 (r g b a : Nat)
    (hr : r ≤ 255) (hg : g ≤ 255) (hb : b ≤ 255) :
    ∀ i, i < 4 →
      (((yuv420p_to_rgba (rgba_to_yuv420p (constBlock r g b a) 2 2) 2 2).getD
          (4 * i) 0 : Int) - (r : Int)).natAbs ≤ 21 ∧
      (((yuv420p_to_rgba (rgba_to_yuv420p (constBlock r g b a) 2 2) 2 2).getD
          (4 * i + 1) 0 : Int) - (g : Int)).natAbs ≤ 21 ∧
      (((yuv420p_to_rgba (rgba_to_yuv420p (constBlock r g b a) 2 2) 2 2).getD
          (4 * i + 2) 0 : Int) - (b : Int)).natAbs ≤ 21 := by
  have hrc : ((rOut (r : Int) g b).toNat : Int) = rOut (r : Int) g b :=
    Int.toNat_of_nonneg (by unfold rOut clampI; omega)
  have hgc : ((gOut (r : Int) g b).toNat : Int) = gOut (r : Int) g b :=
    Int.toNat_of_nonneg (by unfold gOut clampI; omega)
  have hbc : ((bOut (r : Int) g b).toNat : Int) = bOut (r : Int) g b :=
    Int.toNat_of_nonneg (by unfold bOut clampI; omega)
  have hRb := rOut_bound (r : Int) g b (by omega) (by omega) (by omega)
  have hGb := gOut_bound (r : Int) g b (by omega) (by omega) (by omega)
  have hBb := bOut_bound (r : Int) g b (by omega) (by omega) (by omega)
  have hload0 : ∀ j : Nat, j < 4 →
      (yuv420p_to_rgba (rgba_to_yuv420p (constBlock r g b a) 2 2) 2 2).getD
        (4 * j) 0 = (rOut (r : Int) g b).toNat := by
    intro j hj
    interval_cases j <;> (rw [roundtrip_eval r g b a]; rfl)
  have hload1 : ∀ j : Nat, j < 4 →
      (yuv420p_to_rgba (rgba_to_yuv420p (constBlock r g b a) 2 2) 2 2).getD
        (4 * j + 1) 0 = (gOut (r : Int) g b).toNat := by
    intro j hj
    interval_cases j <;> (rw [roundtrip_eval r g b a]; rfl)
  have hload2 : ∀ j : Nat, j < 4 →
      (yuv420p_to_rgba (rgba_to_yuv420p (constBlock r g b a) 2 2) 2 2).getD
        (4 * j + 2) 0 = (bOut (r : Int) g b).toNat := by
    intro j hj
    interval_cases j <;> (rw [roundtrip_eval r g b a]; rfl)
  intro i hi
  refine ⟨?_, ?_, ?_⟩
  · rw [hload0 i hi, hrc]; exact hRb
  · rw [hload1 i hi, hgc]; exact hGb
  · rw [hload2 i hi, hbc]; exact hBb

/-- Witness for the amended C7 at colour `(10, 20, 200)`. -/
theorem rgba_yuv_roundtrip_within_21_witness :
    (10 : Nat) ≤ 255 ∧ (20 : Nat) ≤ 255 ∧ (200 : Nat) ≤ 255 ∧
    (∀ i, i < 4 →
      (((yuv420p_to_rgba (rgba_to_yuv420p (constBlock 10 20 200 7) 2 2) 2 2).getD
          (4 * i) 0 : Int) - (10 : Int)).natAbs ≤ 21 ∧
      (((yuv420p_to_rgba (rgba_to_yuv420p (constBlock 10 20 200 7) 2 2) 2 2).getD
          (4 * i + 1) 0 : Int) - (20 : Int)).natAbs ≤ 21 ∧
      (((yuv420p_to_rgba (rgba_to_yuv420p (constBlock 10 20 200 7) 2 2) 2 2).getD
          (4 * i + 2) 0 : Int) - (200 : Int)).natAbs ≤ 21) :=
  ⟨by decide, by decide, by decide,
    rgba_yuv_roundtrip_within_21 10 20 200 7 (by decide) (by decide) (by decide)⟩

/-! ## Subtitle overlay blending (`blend_overlay_rgba` in `overlay.rs`)

Per-pixel source-over alpha blending of an RGBA overlay bitmap onto an RGBA
frame, in place.  Coordinates outside the frame are clipped; out-of-range
data indices are skipped; `α = 0` skips, `α = 255` copies, otherwise
`out = (src·α + dst·(255−α))/255`; every written pixel gets alpha 255. -/

/-- `SubtitleOverlay`: a timed RGBA bitmap with a position. -/
structure SubtitleOverlay where
  start_ms : Int
  end_ms : Int
  x : Int
  y : Int
  width : Nat
  height : Nat
  rgba_data : List Nat
  deriving Repr

theorem getD_set_ne (l : List Nat) (i j : Nat) (v : Nat) (h : i ≠ j) :
    (l.set i v).getD j 0 = l.getD j 0 := by
  simp [List.getD, List.getElem?_set, h]

theorem getD_set_eq (l : List Nat) (i : Nat) (v : Nat) (h : i < l.length) :
    (l.set i v).getD i 0 = v := by
  simp [List.getD, List.getElem?_set, h]

/-- The body of the blend loop for one overlay coordinate `(oy, ox)`
(`i32` coordinates): frame clipping, data-length guards, the `α = 0` skip,
the `α = 255` copy and the general blend, writing the four bytes of the
covered frame pixel (`as u8` casts are `% 256`). -/
def blendPixel (fw fh : Int) (ov : SubtitleOverlay) (acc : List Nat)
    (oy ox : Int) : List Nat :=
  let fy := ov.y + oy
  if fy < 0 ∨ fy ≥ fh then acc
  else
    let fx := ov.x + ox
    if fx < 0 ∨ fx ≥ fw then acc
    else
      let overlay_idx := ((oy * (ov.width : Int) + ox) * 4).toNat
      let frame_idx := ((fy * fw + fx) * 4).toNat
      if overlay_idx + 3 ≥ ov.rgba_data.length then acc
      else if frame_idx + 3 ≥ acc.length then acc
      else
        let sa := ov.rgba_data.getD (overlay_idx + 3) 0
        if sa = 0 then acc
        else
          let sr := ov.rgba_data.getD overlay_idx 0
          let sg := ov.rgba_data.getD (overlay_idx + 1) 0
          let sb := ov.rgba_data.getD (overlay_idx + 2) 0
          if sa = 255 then
            (((acc.set frame_idx (sr % 256)).set (frame_idx + 1) (sg % 256)).set
              (frame_idx + 2) (sb % 256)).set (frame_idx + 3) 255
          else
            let da := 255 - sa
            let dr := acc.getD frame_idx 0
            let dg := acc.getD (frame_idx + 1) 0
            let db := acc.getD (frame_idx + 2) 0
            (((acc.set frame_idx ((sr * sa + dr * da) / 255 % 256)).set
              (frame_idx + 1) ((sg * sa + dg * da) / 255 % 256)).set
              (frame_idx + 2) ((sb * sa + db * da) / 255 % 256)).set
              (frame_idx + 3) 255

/-- `blend_overlay_rgba`: the row-major double loop over the overlay bitmap. -/
def blend_overlay_rgba (frame : List Nat) (frame_width frame_height : Nat)
    (ov : SubtitleOverlay) : List Nat :=
  (List.range ov.height).foldl (fun acc (oy : Nat) =>
    (List.range ov.width).foldl (fun acc (ox : Nat) =>
      blendPixel (frame_width : Int) (frame_height : Int) ov acc
        (oy : Int) (ox : Int)) acc) frame

theorem blendPixel_length (fw fh : Int) (ov : SubtitleOverlay) (acc : List Nat)
    (oy ox : Int) : (blendPixel fw fh ov acc oy ox).length = acc.length := by
  unfold blendPixel
  dsimp only
  split_ifs <;> simp [List.length_set]

/-- A blend step leaves byte `j` unchanged when `j` is not one of the four
bytes of the covered in-frame pixel. -/
theorem blendPixel_preserve (fw fh : Int) (ov : SubtitleOverlay) (acc : List Nat)
    (oy ox : Int) (j : Nat)
    (h : 0 ≤ ov.y + oy → ov.y + oy < fh → 0 ≤ ov.x + ox → ov.x + ox < fw →
      ∀ k : Nat, k < 4 →
        j ≠ (((ov.y + oy) * fw + (ov.x + ox)) * 4).toNat + k) :
    (blendPixel fw fh ov acc oy ox).getD j 0 = acc.getD j 0 := by
  unfold blendPixel
  dsimp only
  split_ifs with h1 h2 h3 h4 h5 h6
  · rfl
  · rfl
  · rfl
  · rfl
  · rfl
  all_goals {
    push_neg at h1 h2
    have hb := h (by omega) (by omega) (by omega) (by omega)
    rw [getD_set_ne _ _ _ _ (by have := hb 3 (by omega); omega),
        getD_set_ne _ _ _ _ (by have := hb 2 (by omega); omega),
        getD_set_ne _ _ _ _ (by have := hb 1 (by omega); omega),
        getD_set_ne _ _ _ _ (by have := hb 0 (by omega); omega)]
  }

/-- A blend step whose overlay pixel has alpha byte 0 changes nothing. -/
theorem blendPixel_alpha0 (fw fh : Int) (ov : SubtitleOverlay) (acc : List Nat)
    (oy ox : Int)
    (ha : ov.rgba_data.getD (((oy * (ov.width : Int) + ox) * 4).toNat + 3) 0 = 0) :
    blendPixel fw fh ov acc oy ox = acc := by
  unfold blendPixel
  dsimp only
  split_ifs <;> rfl

/-- A blend step that passes all guards with nonzero alpha writes 255 into
the alpha byte of the covered frame pixel. -/
theorem blendPixel_writes_alpha (fw fh : Int) (ov : SubtitleOverlay)
    (acc : List Nat) (oy ox : Int)
    (hfy1 : 0 ≤ ov.y + oy) (hfy2 : ov.y + oy < fh)
    (hfx1 : 0 ≤ ov.x + ox) (hfx2 : ov.x + ox < fw)
    (hol : ((oy * (ov.width : Int) + ox) * 4).toNat + 3 < ov.rgba_data.length)
    (hfl : (((ov.y + oy) * fw + (ov.x + ox)) * 4).toNat + 3 < acc.length)
    (ha : ov.rgba_data.getD (((oy * (ov.width : Int) + ox) * 4).toNat + 3) 0 ≠ 0) :
    (blendPixel fw fh ov acc oy ox).getD
      ((((ov.y + oy) * fw + (ov.x + ox)) * 4).toNat + 3) 0 = 255 := by
  unfold blendPixel
  dsimp only
  rw [if_neg (by omega), if_neg (by omega), if_neg (by omega), if_neg (by omega)]
  rw [if_neg ha]
  split_ifs with h6 <;> exact getD_set_eq _ _ _ (by simp [List.length_set]; omega)

theorem foldl_getD_preserve {m : Type} (f : List Nat → m → List Nat) (l : List m)
    (init : List Nat) (j : Nat)
    (h : ∀ acc a, a ∈ l → (f acc a).getD j 0 = acc.getD j 0) :
    (l.foldl f init).getD j 0 = init.getD j 0 := by
  induction l generalizing init with
  | nil => rfl
  | cons a t ih =>
    rw [List.foldl_cons, ih _ (fun acc b hb => h acc b (List.mem_cons_of_mem a hb)),
      h init a (List.mem_cons_self a t)]

theorem foldl_length_preserve {m : Type} (f : List Nat → m → List Nat) (l : List m)
    (init : List Nat)
    (h : ∀ acc a, a ∈ l → (f acc a).length = acc.length) :
    (l.foldl f init).length = init.length := by
  induction l generalizing init with
  | nil => rfl
  | cons a t ih =>
    rw [List.foldl_cons, ih _ (fun acc b hb => h acc b (List.mem_cons_of_mem a hb)),
      h init a (List.mem_cons_self a t)]

theorem foldl_write {m : Type} (f : List Nat → m → List Nat) (j v : Nat)
    (l : List m) (a0 : m) (init : List Nat)
    (hmem : a0 ∈ l) (hnd : l.Nodup)
    (hlen : ∀ acc a, a ∈ l → (f acc a).length = acc.length)
    (hwrite : ∀ acc : List Nat, acc.length = init.length → (f acc a0).getD j 0 = v)
    (hpres : ∀ acc a, a ∈ l → a ≠ a0 → (f acc a).getD j 0 = acc.getD j 0) :
    (l.foldl f init).getD j 0 = v := by
  induction l generalizing init with
  | nil => cases hmem
  | cons a t ih =>
    rw [List.foldl_cons]
    by_cases ha : a = a0
    · subst ha
      have hnot : a ∉ t := (List.nodup_cons.mp hnd).1
      rw [foldl_getD_preserve f t (f init a) j
        (fun acc b hb => hpres acc b (List.mem_cons_of_mem a hb)
          (fun he => hnot (he ▸ hb)))]
      exact hwrite init rfl
    · have hmem2 : a0 ∈ t := by
        cases List.mem_cons.mp hmem with
        | inl h => exact absurd h.symm ha
        | inr h => exact h
      have hlent : (f init a).length = init.length := hlen init a (List.mem_cons_self a t)
      exact ih (f init a) hmem2 (List.nodup_cons.mp hnd).2
        (fun acc b hb => hlen acc b (List.mem_cons_of_mem a hb))
        (fun acc hacc => hwrite acc (hacc.trans hlent))
        (fun acc b hb => hpres acc b (List.mem_cons_of_mem a hb))

theorem grid_index_ne (w y1 x1 y2 x2 : Nat) (hx1 : x1 < w) (hx2 : x2 < w)
    (hne : y1 ≠ y2 ∨ x1 ≠ x2) : y1 * w + x1 ≠ y2 * w + x2 := by
  intro he
  have h1 : (y1 * w + x1) % w = x1 := by
    rw [Nat.mul_comm, Nat.mul_add_mod, Nat.mod_eq_of_lt hx1]
  have h2 : (y2 * w + x2) % w = x2 := by
    rw [Nat.mul_comm, Nat.mul_add_mod, Nat.mod_eq_of_lt hx2]
  rw [he] at h1
  have hx : x1 = x2 := h1.symm.trans h2
  have hy : y1 = y2 := by
    have hw : 0 < w := by omega
    have hm : y1 * w = y2 * w := by omega
    exact Nat.eq_of_mul_eq_mul_right hw hm
  rcases hne with h | h <;> exact h (by omega)

theorem byte_ne_of_pixel_ne (p q k1 k2 : Nat) (h : p ≠ q) (hk1 : k1 < 4) (hk2 : k2 < 4) :
    p * 4 + k1 ≠ q * 4 + k2 := by omega

theorem frame_idx_toNat (fy fx : Int) (fw : Nat) (hfy : 0 ≤ fy) (hfx : 0 ≤ fx) :
    ((fy * (fw : Int) + fx) * 4).toNat = (fy.toNat * fw + fx.toNat) * 4 := by
  have h1 : (fy * (fw : Int) + fx) * 4 = (((fy.toNat * fw + fx.toNat) * 4 : Nat) : Int) := by
    push_cast [Int.toNat_of_nonneg hfy, Int.toNat_of_nonneg hfx]
    ring
  rw [h1, Int.toNat_natCast]

theorem overlay_idx_toNat (oy ox w : Nat) :
    (((oy : Int) * (w : Int) + (ox : Int)) * 4).toNat = (oy * w + ox) * 4 := by
  rw [frame_idx_toNat _ _ _ (Int.natCast_nonneg oy) (Int.natCast_nonneg ox)]
  simp

/-- A blend step at overlay coordinate `(oy, ox)` whose covered frame pixel is
not `(py, px)` leaves every byte of pixel `(py, px)` unchanged. -/
theorem blendPixel_preserve_pixel (fw fh : Nat) (ov : SubtitleOverlay) (acc : List Nat)
    (oy ox py px k : Nat) (hpx : px < fw) (hk : k < 4)
    (hne : ¬(ov.y + (oy : Int) = (py : Int) ∧ ov.x + (ox : Int) = (px : Int))) :
    (blendPixel (fw : Int) (fh : Int) ov acc (oy : Int) (ox : Int)).getD
        ((py * fw + px) * 4 + k) 0 =
      acc.getD ((py * fw + px) * 4 + k) 0 := by
  apply blendPixel_preserve
  intro hy1 hy2 hx1 hx2 k2 hk2
  have hneP : (ov.y + (oy : Int)).toNat ≠ py ∨ (ov.x + (ox : Int)).toNat ≠ px := by
    omega
  have hXlt : (ov.x + (ox : Int)).toNat < fw := by omega
  rw [frame_idx_toNat _ _ _ hy1 hx1]
  exact byte_ne_of_pixel_ne _ _ _ _
    (grid_index_ne fw _ _ py px hXlt hpx hneP).symm hk hk2


theorem blend_outside_pixel_unchanged (frame : List Nat) (fw fh : Nat)
    (ov : SubtitleOverlay) (px py : Nat) (hpx : px < fw)
    (hout : ∀ oy ox : Nat, oy < ov.height → ox < ov.width →
      ¬(ov.y + (oy : Int) = (py : Int) ∧ ov.x + (ox : Int) = (px : Int)))
    (k : Nat) (hk : k < 4) :
    (blend_overlay_rgba frame fw fh ov).getD ((py * fw + px) * 4 + k) 0 =
      frame.getD ((py * fw + px) * 4 + k) 0 := by
  unfold blend_overlay_rgba
  refine foldl_getD_preserve _ (List.range ov.height) frame _ ?_
  intro acc oy hoy
  refine foldl_getD_preserve _ (List.range ov.width) acc _ ?_
  intro acc2 ox hox
  rw [List.mem_range] at hoy hox
  exact blendPixel_preserve_pixel fw fh ov acc2 oy ox py px k hpx hk
    (hout oy ox hoy hox)

theorem blend_alpha0_pixel_unchanged (frame : List Nat) (fw fh : Nat)
    (ov : SubtitleOverlay) (px py oy0 ox0 : Nat) (hpx : px < fw)
    (hoy0 : oy0 < ov.height) (hox0 : ox0 < ov.width)
    (hfy : ov.y + (oy0 : Int) = (py : Int)) (hfx : ov.x + (ox0 : Int) = (px : Int))
    (ha : ov.rgba_data.getD ((oy0 * ov.width + ox0) * 4 + 3) 0 = 0)
    (k : Nat) (hk : k < 4) :
    (blend_overlay_rgba frame fw fh ov).getD ((py * fw + px) * 4 + k) 0 =
      frame.getD ((py * fw + px) * 4 + k) 0 := by
  unfold blend_overlay_rgba
  refine foldl_getD_preserve _ (List.range ov.height) frame _ ?_
  intro acc oy hoy
  refine foldl_getD_preserve _ (List.range ov.width) acc _ ?_
  intro acc2 ox hox
  rw [List.mem_range] at hoy hox
  by_cases hcase : oy = oy0 ∧ ox = ox0
  · obtain ⟨h1, h2⟩ := hcase
    subst h1
    subst h2
    rw [blendPixel_alpha0 _ _ _ _ _ _ (by rw [overlay_idx_toNat]; exact ha)]
  · exact blendPixel_preserve_pixel fw fh ov acc2 oy ox py px k hpx hk (by omega)

theorem blend_covered_pixel_alpha255 (frame : List Nat) (fw fh : Nat)
    (ov : SubtitleOverlay) (px py oy0 ox0 : Nat) (hpx : px < fw) (hpy : py < fh)
    (hoy0 : oy0 < ov.height) (hox0 : ox0 < ov.width)
    (hfy : ov.y + (oy0 : Int) = (py : Int)) (hfx : ov.x + (ox0 : Int) = (px : Int))
    (hol : (oy0 * ov.width + ox0) * 4 + 3 < ov.rgba_data.length)
    (hfl : (py * fw + px) * 4 + 3 < frame.length)
    (ha : ov.rgba_data.getD ((oy0 * ov.width + ox0) * 4 + 3) 0 ≠ 0) :
    (blend_overlay_rgba frame fw fh ov).getD ((py * fw + px) * 4 + 3) 0 = 255 := by
  unfold blend_overlay_rgba
  refine foldl_write _ _ _ (List.range ov.height) oy0 frame
    (List.mem_range.mpr hoy0) (List.nodup_range _) ?_ ?_ ?_
  · intro acc oy hoy
    exact foldl_length_preserve _ _ _
      (fun acc2 ox hox => blendPixel_length _ _ _ _ _ _)
  · intro acc hacc
    refine foldl_write _ _ _ (List.range ov.width) ox0 acc
      (List.mem_range.mpr hox0) (List.nodup_range _) ?_ ?_ ?_
    · intro acc2 ox hox
      exact blendPixel_length _ _ _ _ _ _
    · intro acc2 hacc2
      have key := blendPixel_writes_alpha (fw : Int) (fh : Int) ov acc2
        (oy0 : Int) (ox0 : Int) (by omega) (by omega) (by omega) (by omega)
        (by rw [overlay_idx_toNat]; exact hol)
        (by rw [hfy, hfx, overlay_idx_toNat]; omega)
        (by rw [overlay_idx_toNat]; exact ha)
      rw [hfy, hfx, overlay_idx_toNat] at key
      exact key
    · intro acc2 ox hox hne
      rw [List.mem_range] at hox
      exact blendPixel_preserve_pixel fw fh ov acc2 oy0 ox py px 3 hpx
        (by omega) (by omega)
  · intro acc oy hoy hne
    rw [List.mem_range] at hoy
    refine foldl_getD_preserve _ (List.range ov.width) acc _ ?_
    intro acc2 ox hox
    rw [List.mem_range] at hox
    exact blendPixel_preserve_pixel fw fh ov acc2 oy ox py px 3 hpx
      (by omega) (by omega)


/-- C10: for every frame buffer and overlay, `blend_overlay_rgba` leaves every
byte of a frame pixel outside the clipped overlay rectangle unchanged, leaves
every byte of a frame pixel covered by an overlay pixel with alpha 0 unchanged,
and writes 255 into the alpha byte of every frame pixel it does blend
(overlay alpha nonzero, all index guards passing). -/
theorem blend_overlay_rgba_pixel_effects (frame : List Nat) (fw fh : Nat)
    (ov : SubtitleOverlay) (px py : Nat) (hpx : px < fw) (hpy : py < fh) :
    ((∀ oy ox : Nat, oy < ov.height → ox < ov.width →
        ¬(ov.y + (oy : Int) = (py : Int) ∧ ov.x + (ox : Int) = (px : Int))) →
      ∀ k, k < 4 →
        (blend_overlay_rgba frame fw fh ov).getD ((py * fw + px) * 4 + k) 0 =
          frame.getD ((py * fw + px) * 4 + k) 0) ∧
    (∀ oy ox : Nat, oy < ov.height → ox < ov.width →
      ov.y + (oy : Int) = (py : Int) → ov.x + (ox : Int) = (px : Int) →
      ov.rgba_data.getD ((oy * ov.width + ox) * 4 + 3) 0 = 0 →
      ∀ k, k < 4 →
        (blend_overlay_rgba frame fw fh ov).getD ((py * fw + px) * 4 + k) 0 =
          frame.getD ((py * fw + px) * 4 + k) 0) ∧
    (∀ oy ox : Nat, oy < ov.height → ox < ov.width →
      ov.y + (oy : Int) = (py : Int) → ov.x + (ox : Int) = (px : Int) →
      (oy * ov.width + ox) * 4 + 3 < ov.rgba_data.length →
      (py * fw + px) * 4 + 3 < frame.length →
      ov.rgba_data.getD ((oy * ov.width + ox) * 4 + 3) 0 ≠ 0 →
      (blend_overlay_rgba frame fw fh ov).getD ((py * fw + px) * 4 + 3) 0 = 255) :=
  ⟨fun hout k hk =>
    blend_outside_pixel_unchanged frame fw fh ov px py hpx hout k hk,
  fun oy ox hoy hox hfy hfx ha k hk =>
    blend_alpha0_pixel_unchanged frame fw fh ov px py oy ox hpx hoy hox hfy hfx ha k hk,
  fun oy ox hoy hox hfy hfx hol hfl ha =>
    blend_covered_pixel_alpha255 frame fw fh ov px py oy ox hpx hpy hoy hox
      hfy hfx hol hfl ha⟩

/-- Witness overlay for C10: a 1 by 1 overlay at position (1, 1) with a
half-transparent pixel. -/
def w10ov : SubtitleOverlay :=
  ⟨0, 5000, 1, 1, 1, 1, [100, 150, 200, 128]⟩

/-- Witness frame for C10: a 2 by 2 RGBA frame. -/
def w10frame : List Nat :=
  [1, 2, 3, 4, 5, 6, 7, 8, 9, 10, 11, 12, 13, 14, 15, 16]

theorem blend_overlay_rgba_pixel_effects_witness :
    1 < 2 ∧ 1 < 2 ∧ 0 < w10ov.height ∧ 0 < w10ov.width ∧
    w10ov.y + (0 : Int) = (1 : Int) ∧ w10ov.x + (0 : Int) = (1 : Int) ∧
    (0 * w10ov.width + 0) * 4 + 3 < w10ov.rgba_data.length ∧
    (1 * 2 + 1) * 4 + 3 < w10frame.length ∧
    w10ov.rgba_data.getD ((0 * w10ov.width + 0) * 4 + 3) 0 ≠ 0 ∧
    (blend_overlay_rgba w10frame 2 2 w10ov).getD ((1 * 2 + 1) * 4 + 3) 0 = 255 :=
  ⟨by decide, by decide, by decide, by decide, by decide, by decide, by decide,
    by decide, by decide,
    (blend_overlay_rgba_pixel_effects w10frame 2 2 w10ov 1 1 (by decide)
        (by decide)).2.2 0 0 (by decide) (by decide) (by decide) (by decide)
      (by decide) (by decide) (by decide)⟩


/-! ## Track selection in `Renderer::render_frame` (claim C6) -/

/-- The clip-collection loop at the head of `Renderer::render_frame`
(renderer.rs:263-277): iterate `video_tracks` in storage order and keep, for
each enabled track, the pair of its covering clip and the source time. -/
def clipsToRender (tl : Timeline) (timestamp_ms : Int) : List (VideoClip × Int) :=
  tl.video_tracks.foldl (fun clips track =>
    if track.enabled then
      match track.get_clip_at_time timestamp_ms with
      | some clip =>
        match clip.timeline_to_source_time timestamp_ms with
        | some src => clips ++ [(clip, src)]
        | none => clips
      | none => clips
    else clips) []

/-- The clip `render_frame` actually renders: `clips_to_render[0]`
(renderer.rs:291), `none` when the list is empty (black-frame path). -/
def selectedClip (tl : Timeline) (timestamp_ms : Int) : Option (VideoClip × Int) :=
  (clipsToRender tl timestamp_ms).head?

/-- What one track adds to `clips_to_render`. -/
def trackContribution (tr : VideoTrack) (t : Int) : List (VideoClip × Int) :=
  if tr.enabled then
    match tr.get_clip_at_time t with
    | some clip =>
      match clip.timeline_to_source_time t with
      | some src => [(clip, src)]
      | none => []
    | none => []
  else []

theorem foldl_append_eq {m b : Type} (g : m → List b) (l : List m) (init : List b) :
    l.foldl (fun acc a => acc ++ g a) init = init ++ l.flatMap g := by
  induction l generalizing init with
  | nil => simp
  | cons a t ih => simp [ih, List.flatMap_cons]

theorem clipsToRender_eq_flatMap (tl : Timeline) (t : Int) :
    clipsToRender tl t = tl.video_tracks.flatMap (fun tr => trackContribution tr t) := by
  have hstep : (fun (clips : List (VideoClip × Int)) (track : VideoTrack) =>
      if track.enabled then
        match track.get_clip_at_time t with
        | some clip =>
          match clip.timeline_to_source_time t with
          | some src => clips ++ [(clip, src)]
          | none => clips
        | none => clips
      else clips) =
      (fun clips track => clips ++ trackContribution track t) := by
    funext clips track
    unfold trackContribution
    split_ifs with h
    · split <;> (try split) <;> simp
    · simp
  unfold clipsToRender
  rw [hstep, foldl_append_eq]
  simp

def w6clipA : VideoClip := ⟨1, "a.mp4", 0, 1000, 0, 1000⟩
def w6clipB : VideoClip := ⟨2, "b.mp4", 0, 1000, 0, 1000⟩
def w6trackA : VideoTrack := ⟨10, 0, [w6clipA], true⟩
def w6trackB : VideoTrack := ⟨11, 1, [w6clipB], true⟩
def w6timeline : Timeline := ⟨[w6trackA, w6trackB]⟩

/-- C6 counterexample: two enabled tracks cover `t = 500`; the topmost
(highest-index) one holds `w6clipB`, yet the renderer selects `w6clipA` from
the bottom track. -/
theorem renderer_topmost_track_counterexample :
    w6trackB.index > w6trackA.index ∧ w6trackB.enabled = true ∧
    w6trackB.get_clip_at_time 500 = some w6clipB ∧
    w6trackA.get_clip_at_time 500 = some w6clipA ∧
    selectedClip w6timeline 500 = some (w6clipA, 500) ∧ w6clipA ≠ w6clipB := by
  decide

/-- C6 amended: the renderer renders the covering clip of the FIRST enabled
track in `video_tracks` storage order (the lowest index, the bottom-most
track), not the highest-index one. -/
theorem renderer_renders_first_covering_track (tl : Timeline) (t : Int)
    (pre post : List VideoTrack) (tr : VideoTrack) (c : VideoClip) (src : Int)
    (htl : tl.video_tracks = pre ++ tr :: post)
    (hpre : ∀ tr2 ∈ pre, trackContribution tr2 t = [])
    (hc : tr.get_clip_at_time t = some c)
    (hsrc : c.timeline_to_source_time t = some src) :
    selectedClip tl t = some (c, src) := by
  have hen : tr.enabled = true := by
    unfold VideoTrack.get_clip_at_time at hc
    by_contra h
    simp only [Bool.not_eq_true] at h
    rw [h] at hc
    simp at hc
  unfold selectedClip
  rw [clipsToRender_eq_flatMap, htl, List.flatMap_append, List.flatMap_cons]
  have hpre0 : pre.flatMap (fun tr2 => trackContribution tr2 t) = [] :=
    List.flatMap_eq_nil_iff.mpr hpre
  have hcontrib : trackContribution tr t = [(c, src)] := by
    simp [trackContribution, hen, hc, hsrc]
  rw [hpre0, hcontrib]
  rfl

theorem renderer_renders_first_covering_track_witness :
    w6timeline.video_tracks = [] ++ w6trackA :: [w6trackB] ∧
    (∀ tr2 ∈ ([] : List VideoTrack), trackContribution tr2 500 = []) ∧
    w6trackA.get_clip_at_time 500 = some w6clipA ∧
    VideoClip.timeline_to_source_time w6clipA 500 = some 500 ∧
    selectedClip w6timeline 500 = some (w6clipA, 500) :=
  ⟨by decide, by simp, by decide, by decide,
    renderer_renders_first_covering_track w6timeline 500 [] [w6trackB] w6trackA
      w6clipA 500 (by decide) (by simp) (by decide) (by decide)⟩


/-! ## Totality of `Renderer::render_frame` (claim C2) -/

/-- `black_frame_with_size` (renderer.rs:158-166). -/
def black_frame_with_size (width height : Nat) (timestamp_ms : Int) : RenderedFrame :=
  ⟨width, height, List.replicate (width * height * 4) 0, timestamp_ms, false⟩

/-- `black_frame` (renderer.rs:153-155): 960 by 540 RGBA. -/
def black_frame (timestamp_ms : Int) : RenderedFrame :=
  black_frame_with_size 960 540 timestamp_ms

/-- `black_frame_yuv` (renderer.rs:169-184): zero luma, 128 chroma. -/
def black_frame_yuv (width height : Nat) (timestamp_ms : Int) : RenderedFrame :=
  ⟨width, height,
    List.replicate (width * height) 0 ++
      List.replicate ((width / 2) * (height / 2) * 2) 128,
    timestamp_ms, true⟩

/-- The decoder-cache facts `decode_clip_frame` reads for one file path:
whether a decoder is cached, and whether that decoder is in the `Error`
state (in which case it is dropped and re-opened). -/
structure DecoderSlot where
  cached : Bool
  cached_error : Bool
  deriving Repr, DecidableEq

/-- Oracle for the fallible FFmpeg steps inside `decode_clip_frame`: the
initial `Decoder::open`/`open_for_export` (when no usable decoder is cached),
the first `decode_frame`, the re-open after a decode error, and the retried
`decode_frame`. -/
structure DecodeClipEnv where
  open1_ok : Bool
  decode1 : Except String DecodeResult
  open2_ok : Bool
  decode2 : Except String DecodeResult
  deriving Repr

/-- `Renderer::decode_clip_frame` (renderer.rs:413-460): drop an Error-state
cached decoder, open one if absent (an open failure propagates as `Err`),
decode, and on a decode error drop the decoder, re-open once (failure
propagates as `Err`) and retry `decode_frame` exactly once. -/
def decode_clip_frame (slot : DecoderSlot) (env : DecodeClipEnv) :
    Except String DecodeResult :=
  let present := slot.cached && !slot.cached_error
  if !present && !env.open1_ok then .error "open failed"
  else
    match env.decode1 with
    | .ok result => .ok result
    | .error _ =>
      if !env.open2_ok then .error "Decoder recreate failed"
      else env.decode2

/-- The renderer fields `render_frame` reads and writes. -/
structure RendererState where
  frame_cache : FrameCache
  last_rendered_frame : Option RenderedFrame
  export_resolution : Option (Nat × Nat)
  deriving Repr, DecidableEq

/-- The fallback of the skip/EOF-empty/error arms: `last_rendered_frame`, or
a black frame in the mode's output format (renderer.rs:346-351, 370-375,
384-389). -/
def fallbackFrame (st : RendererState) (timestamp_ms : Int) : RenderedFrame :=
  match st.last_rendered_frame with
  | some f => f
  | none =>
    match st.export_resolution with
    | some (w, h) => black_frame_yuv w h timestamp_ms
    | none => black_frame timestamp_ms

/-- `Renderer::render_frame` (renderer.rs:254-392).  `lock_ok` is the
timeline-mutex oracle (the only `Err` exit), `slot`/`env` drive
`decode_clip_frame` for the selected clip's path, and `fx` stands for the
`apply_effects` data transformation applied to non-YUV decoded frames. -/
def render_frame (st : RendererState) (lock_ok : Bool) (tl : Timeline)
    (slot : DecoderSlot) (env : DecodeClipEnv) (fx : List Nat → List Nat)
    (timestamp_ms : Int) : Except String (RenderedFrame × RendererState) :=
  if !lock_ok then .error "Failed to lock timeline"
  else
    match clipsToRender tl timestamp_ms with
    | [] =>
      match st.export_resolution with
      | some (w, h) => .ok (black_frame_yuv w h timestamp_ms, st)
      | none => .ok (black_frame timestamp_ms, st)
    | (clip, source_time_ms) :: _ =>
      match FrameCache.get st.frame_cache clip.file_path source_time_ms with
      | (some f, cache2) =>
        .ok ({ f with timestamp_ms := timestamp_ms },
          { st with frame_cache := cache2 })
      | (none, cache2) =>
        let st2 := { st with frame_cache := cache2 }
        match decode_clip_frame slot env with
        | .ok (DecodeResult.Frame f) =>
          let is_yuv := f.format == PixelFormat.YUV420P
          let rendered0 : RenderedFrame :=
            ⟨f.width, f.height, f.data, timestamp_ms, is_yuv⟩
          let rendered :=
            if is_yuv then rendered0
            else { rendered0 with data := fx rendered0.data }
          .ok (rendered,
            { st2 with
              frame_cache :=
                FrameCache.put cache2 clip.file_path source_time_ms rendered
              last_rendered_frame := some rendered })
        | .ok DecodeResult.FrameSkipped =>
          .ok (fallbackFrame st2 timestamp_ms, st2)
        | .ok (DecodeResult.EndOfStream f) =>
          let is_yuv := f.format == PixelFormat.YUV420P
          let rendered : RenderedFrame :=
            ⟨f.width, f.height, f.data, timestamp_ms, is_yuv⟩
          .ok (rendered, { st2 with last_rendered_frame := some rendered })
        | .ok DecodeResult.EndOfStreamEmpty =>
          .ok (fallbackFrame st2 timestamp_ms, st2)
        | .error _ =>
          .ok (fallbackFrame st2 timestamp_ms, st2)

/-- C2: on a lockable timeline `render_frame` always returns `Ok`; after a
first decode error with a usable or openable decoder, `decode_clip_frame`
re-opens and returns the retried decode's result; and when
`decode_clip_frame` fails outright on a cache miss, `render_frame` returns
the fallback frame. -/
theorem renderer_render_frame_total (st : RendererState) (tl : Timeline)
    (slot : DecoderSlot) (env : DecodeClipEnv) (fx : List Nat → List Nat)
    (t : Int) :
    ((render_frame st true tl slot env fx t).isOk = true) ∧
    (env.decode1.isOk = false → env.open2_ok = true →
      ((slot.cached && !slot.cached_error) = true ∨ env.open1_ok = true) →
      decode_clip_frame slot env = env.decode2) ∧
    (∀ clip src rest cache2 m,
      clipsToRender tl t = (clip, src) :: rest →
      FrameCache.get st.frame_cache clip.file_path src = (none, cache2) →
      decode_clip_frame slot env = .error m →
      render_frame st true tl slot env fx t =
        .ok (fallbackFrame { st with frame_cache := cache2 } t,
          { st with frame_cache := cache2 })) := by
  refine ⟨?_, ?_, ?_⟩
  · unfold render_frame
    rw [if_neg (by decide)]
    split
    · split <;> rfl
    · split
      · rfl
      · split <;> rfl
  · intro h1 h2 h3
    unfold decode_clip_frame
    have hp : (!(slot.cached && !slot.cached_error) && !env.open1_ok) = false := by
      rcases h3 with h | h
      · rw [h]
        rfl
      · rw [h]
        simp
    rw [if_neg (show ¬((!(slot.cached && !slot.cached_error) &&
        !env.open1_ok) = true) by rw [hp]; exact Bool.false_ne_true)]
    cases hd : env.decode1 with
    | ok r =>
      rw [hd] at h1
      simp [Except.isOk, Except.toBool] at h1
    | error e => simp [h2]
  · intro clip src rest cache2 m hcl hget hdec
    simp [render_frame, hcl, hget, hdec]

/-- Concrete renderer state for the C2 witness. -/
def w2state : RendererState := ⟨FrameCache.new 60 1000, none, none⟩

/-- Concrete decode oracle for the C2 witness: first decode fails and the
re-open fails too, so `decode_clip_frame` fails outright. -/
def w2env : DecodeClipEnv := ⟨true, .error "e", false, .ok DecodeResult.FrameSkipped⟩

/-- Cache state after the witness miss. -/
def w2cache : FrameCache := ⟨[], 60, 1000, 0, 0, 1⟩

theorem renderer_render_frame_total_witness :
    clipsToRender w6timeline 500 = (w6clipA, 500) :: [(w6clipB, 500)] ∧
    FrameCache.get w2state.frame_cache w6clipA.file_path 500 = (none, w2cache) ∧
    decode_clip_frame ⟨true, false⟩ w2env = .error "Decoder recreate failed" ∧
    render_frame w2state true w6timeline ⟨true, false⟩ w2env id 500 =
      .ok (fallbackFrame ⟨w2cache, none, none⟩ 500, ⟨w2cache, none, none⟩) :=
  ⟨by rfl, by rfl, by rfl,
    (renderer_render_frame_total w2state w6timeline ⟨true, false⟩ w2env id 500).2.2
      w6clipA 500 [(w6clipB, 500)] w2cache "Decoder recreate failed"
      (by rfl) (by rfl) (by rfl)⟩


/-! ## Export cancellation (`ExportJob::export_thread`, claim C1) -/

/-- `ExportJob::safe_encoder_path` (exporter.rs:78-107).  String predicates and
path construction are oracles: `temp_path` is the `temp_dir` candidate,
`root_temp` the drive-root candidate, `output_ascii`/`temp_ascii` the
`is_ascii` tests and `has_drive` the `chars().nth(1) == ':'` test.  Returns
`(encoder path, needs_move)`. -/
def safe_encoder_path (output_path temp_path root_temp : String)
    (output_ascii temp_ascii has_drive : Bool) : String × Bool :=
  if output_ascii then (output_path, false)
  else if temp_ascii then (temp_path, true)
  else if has_drive then (root_temp, true)
  else (output_path, false)

/-- Observable outcome of one `export_thread` run: the returned result, the
set of files on disk afterwards (the encoder target file, moved or deleted),
and whether `encoder.finish` was called. -/
structure ExportOutcome where
  result : Except String Unit
  fs : List String
  encoder_finished : Bool
  deriving Repr

/-- Fuelled frame loop of `export_thread` (exporter.rs:214-292) for a run in
which every render/encode succeeds: at the head of each iteration the
cancelled flag is checked (set from frame `cancel_at` on); then the loop
exits normally once `frame_index` reaches `total` (the `timestamp_ms >=
duration_ms` break).  On cancel: `encoder.finish()` then the temp file is
deleted only `if needs_move`.  On normal exit: `finish` then `move_file` to
`op` when `needs_move`.  `fuel = total + 1` always suffices. -/
def exportLoopF (cancel_at total : Nat) (op ep : String) (nm : Bool)
    (fs : List String) : Nat → Nat → ExportOutcome
  | 0, _ => ⟨.error "out of fuel", fs, false⟩
  | fuel + 1, frame_index =>
    if cancel_at ≤ frame_index then
      ⟨.error "Export cancelled", if nm then fs.erase ep else fs, true⟩
    else if total ≤ frame_index then
      ⟨.ok (), if nm then fs.erase ep ++ [op] else fs, true⟩
    else
      exportLoopF cancel_at total op ep nm fs fuel (frame_index + 1)

/-- The loop entered at frame 0 with the freshly created encoder file. -/
def exportLoop (cancel_at total : Nat) (op ep : String) (nm : Bool) : ExportOutcome :=
  exportLoopF cancel_at total op ep nm [ep] (total + 1) 0

/-- `export_thread` (exporter.rs:130-304) for runs whose per-frame work
succeeds: directory creation, the timeline lock, the empty-timeline check,
`safe_encoder_path`, encoder creation with the retry-on-original-path
fallback (exporter.rs:173-193), `write_header`, then the frame loop. -/
def export_thread (op tp rp : String) (oa ta hd : Bool)
    (dir_ok lock_ok : Bool) (duration : Int) (enc1 enc2 header : Bool)
    (total cancel_at : Nat) : ExportOutcome :=
  if !dir_ok then ⟨.error "mkdir failed", [], false⟩
  else if !lock_ok then ⟨.error "Timeline lock failed", [], false⟩
  else if duration ≤ 0 then ⟨.error "timeline empty", [], false⟩
  else
    let sp := safe_encoder_path op tp rp oa ta hd
    if enc1 then
      if !header then ⟨.error "header failed", [sp.1], false⟩
      else exportLoop cancel_at total op sp.1 sp.2
    else if sp.2 then
      if enc2 then
        if !header then ⟨.error "header failed", [op], false⟩
        else exportLoop cancel_at total op op false
      else ⟨.error "encoder create failed", [], false⟩
    else ⟨.error "encoder create failed", [], false⟩

/-- The spawning closure (exporter.rs:56-72): an `Err` from `export_thread`
is written to the error slot and `finished` is set in every case. -/
def export_job_after (r : Except String Unit) : Option String × Bool :=
  match r with
  | .ok _ => (none, true)
  | .error msg => (some msg, true)

theorem exportLoopF_cancel (cancel_at total : Nat) (op ep : String) (nm : Bool)
    (fs : List String) (fuel i : Nat) (h1 : i ≤ cancel_at) (h2 : cancel_at ≤ total)
    (h3 : cancel_at < i + fuel) :
    exportLoopF cancel_at total op ep nm fs fuel i =
      ⟨.error "Export cancelled", if nm then fs.erase ep else fs, true⟩ := by
  induction fuel generalizing i with
  | zero => omega
  | succ fuel ih =>
    unfold exportLoopF
    by_cases hc : cancel_at ≤ i
    · rw [if_pos hc]
    · rw [if_neg hc, if_neg (by omega)]
      exact ih (i + 1) (by omega) (by omega)

/-- C1 amended: when cancellation is observed (flag set from a frame index
not past the loop's last head check), `export_thread` finishes the encoder,
returns the cancellation error, and the job records the message and sets
finished; the encoder file is deleted ONLY when `needs_move` is set.  With
`needs_move` unset the encoder path IS the destination `op`, and the partial
file remains there. -/
theorem export_cancellation_semantics (op tp rp : String)
    (oa ta hd dir_ok lock_ok enc1 enc2 header : Bool) (duration : Int)
    (total cancel_at : Nat)
    (hdir : dir_ok = true) (hlock : lock_ok = true) (hdur : 0 < duration)
    (hheader : header = true) (hcancel : cancel_at ≤ total) :
    (enc1 = true →
      export_thread op tp rp oa ta hd dir_ok lock_ok duration enc1 enc2 header
          total cancel_at =
        ⟨.error "Export cancelled",
          if (safe_encoder_path op tp rp oa ta hd).2 then
            [(safe_encoder_path op tp rp oa ta hd).1].erase
              (safe_encoder_path op tp rp oa ta hd).1
          else [(safe_encoder_path op tp rp oa ta hd).1], true⟩) ∧
    (enc1 = false → (safe_encoder_path op tp rp oa ta hd).2 = true → enc2 = true →
      export_thread op tp rp oa ta hd dir_ok lock_ok duration enc1 enc2 header
          total cancel_at =
        ⟨.error "Export cancelled", [op], true⟩) ∧
    ((safe_encoder_path op tp rp oa ta hd).2 = false →
      (safe_encoder_path op tp rp oa ta hd).1 = op) ∧
    export_job_after (Except.error "Export cancelled" : Except String Unit) =
      (some "Export cancelled", true) := by
  subst hdir hlock hheader
  refine ⟨?_, ?_, ?_, rfl⟩
  · intro he1
    subst he1
    unfold export_thread
    rw [if_neg (by decide), if_neg (by decide), if_neg (by omega), if_pos rfl,
      if_neg (by decide)]
    unfold exportLoop
    rw [exportLoopF_cancel _ _ _ _ _ _ _ _ (Nat.zero_le _) hcancel (by omega)]
  · intro he1 hsp he2
    subst he1
    subst he2
    unfold export_thread
    rw [if_neg (by decide), if_neg (by decide), if_neg (by omega)]
    simp only [Bool.false_eq_true, if_false, hsp, if_true, Bool.not_true,
      Bool.true_eq_false]
    unfold exportLoop
    rw [exportLoopF_cancel _ _ _ _ _ _ _ _ (Nat.zero_le _) hcancel (by omega)]
    simp
  · intro hsp
    unfold safe_encoder_path at hsp ⊢
    split_ifs at hsp ⊢ with h1 h2 h3 <;> simp_all

/-- C1 counterexample: an all-ASCII destination.  `needs_move` is false, the
encoder writes straight to the destination, and after an observed
cancellation the partial file is still there. -/
theorem export_cancel_ascii_partial_file :
    export_thread "out.mp4" "tmp.mp4" "r.mp4" true true true true true
        (1000 : Int) true true true 10 3 =
      ⟨.error "Export cancelled", ["out.mp4"], true⟩ ∧
    "out.mp4" ∈ (export_thread "out.mp4" "tmp.mp4" "r.mp4" true true true true true
        (1000 : Int) true true true 10 3).fs := by
  constructor
  · rfl
  · rw [show export_thread "out.mp4" "tmp.mp4" "r.mp4" true true true true true
        (1000 : Int) true true true 10 3 =
      ⟨.error "Export cancelled", ["out.mp4"], true⟩ from rfl]
    exact List.mem_singleton.mpr rfl

/-- Non-ASCII witness run for the amended claim: temp path is ASCII, encoder
succeeds on it, cancellation at frame 3 of 10 deletes the temp file. -/
theorem export_cancellation_semantics_witness :
    (0 : Int) < 1000 ∧ 3 ≤ 10 ∧
    export_thread "한글.mp4" "tmp.mp4" "r.mp4" false true true true true
        (1000 : Int) true true true 10 3 =
      ⟨.error "Export cancelled", [], true⟩ :=
  ⟨by decide, by decide, by
    have h := (export_cancellation_semantics "한글.mp4" "tmp.mp4" "r.mp4"
      false true true true true true true true (1000 : Int) 10 3
      rfl rfl (by decide) rfl (by decide)).1 rfl
    simpa using h⟩

end VortexCut
